import Mathlib

/-!
The field renderer `GLExtra` of ssl-autonomous-refbox (src/ssl-refbox/glextra.cc).

A shallow embedding of the rendering layer of the autonomous referee box,
followed by the theorems about it.

Conventions of the embedding

* C++ `int` values are integers (`Int`).  Where a computation can leave the
  32-bit range, as the decision variables of the arc rasterizer do from about
  radius 2^29 on, its result is reduced to that range with `wrap32`.
* Drawing calls do not return values; each modelled routine returns what it
  hands to the rendering surface (points, primitives, overlay parts), in the
  order in which the source emits it.
* Declarations of the headers that are not part of the sources at hand
  (`glextra.h`, `global.h`, `filter_data.h`, `libbsmart/field.h`) are taken as
  parameters or modelled from the specification; each such definition says so.
-/

namespace GLExtra

/-! ## Arc rasterizer (glextra.cc, lines 65-112) -/

/-- Modelled from the spec: the `Quadrant` mask of `glextra.h` (header absent), "any
subset of the four quadrants, default = all".  The source only ever tests a mask
with `q & Q_I`, `q & Q_II`, `q & Q_III`, `q & Q_IV`; the four fields are the
outcomes of these four tests. -/
structure Quadrant where
  qI : Bool
  qII : Bool
  qIII : Bool
  qIV : Bool
deriving DecidableEq, Repr

/-- Mask selecting quadrant I only. -/
def Q_I : Quadrant := ⟨true, false, false, false⟩
/-- Mask selecting quadrant II only. -/
def Q_II : Quadrant := ⟨false, true, false, false⟩
/-- Mask selecting quadrant III only. -/
def Q_III : Quadrant := ⟨false, false, true, false⟩
/-- Mask selecting quadrant IV only. -/
def Q_IV : Quadrant := ⟨false, false, false, true⟩
/-- Modelled from the spec: the default argument of `bglBresCircle` ("default = all"). -/
def Q_ALL : Quadrant := ⟨true, true, true, true⟩

/-- The routine `GLExtra::symmPlotPoints(x, y, q)`: the `glVertex2i` calls, in source order. -/
def symmPlotPoints (x y : Int) (q : Quadrant) : List (Int × Int) :=
  (if q.qI then [(x, y), (y, x)] else []) ++
  (if q.qII then [(-x, y), (-y, x)] else []) ++
  (if q.qIII then [(-x, -y), (-y, -x)] else []) ++
  (if q.qIV then [(x, -y), (y, -x)] else [])

/-- The local variables of `bglBresCircle`. -/
structure BresState where
  x : Int
  y : Int
  g : Int
  d : Int
  ri : Int
deriving DecidableEq, Repr

/-- The value that an `int` computation with the exact result `v` leaves in a
32-bit variable: `v` reduced modulo 2^32 to the range -2^31 .. 2^31 - 1.
Signed overflow is undefined in C++; the two's complement wrap-around is what
the usual compilers produce. -/
def wrap32 (v : Int) : Int := (v + 2147483648) % 4294967296 - 2147483648

/-- The initialisation of `bglBresCircle(r, q)` (lines 92-96); `2 * r`,
`3 - 2 * r`, `4 * r` and `10 - 4 * r` are `int` computations. -/
def bresInit (r : Int) : BresState :=
  { x := 0, y := r, g := wrap32 (3 - wrap32 (2 * r)), d := wrap32 (10 - wrap32 (4 * r)),
    ri := 6 }

/-- One pass through the body of the `while` loop after the plot call
(lines 100-109).  The updates of `g`, `d` and `ri` are `int` computations.
Those of `x` and `y` are taken exactly: inside the loop `0 <= x <= y <= r`, and
`x + 1` and `y - 1` stay inside the 32-bit range for every `int` radius. -/
def bresStep (s : BresState) : BresState :=
  if s.g ≥ 0 then
    { x := s.x + 1, y := s.y - 1, g := wrap32 (s.g + s.d), d := wrap32 (s.d + 8),
      ri := wrap32 (s.ri + 4) }
  else
    { x := s.x + 1, y := s.y, g := wrap32 (s.g + s.ri), d := wrap32 (s.d + 4),
      ri := wrap32 (s.ri + 4) }

/-- The `while (x <= y)` loop of `bglBresCircle`: the list of states in which
the loop body is entered, that is, in which `symmPlotPoints` is called. -/
def bresLoop (s : BresState) : List BresState :=
  if s.x ≤ s.y then s :: bresLoop (bresStep s) else []
termination_by (s.y + 1 - s.x).toNat
decreasing_by
  rename_i h
  unfold bresStep
  split <;> simp only <;> omega

/-- The routine `GLExtra::bglBresCircle(r, q)`: the points emitted between `glBegin(GL_POINTS)`
and `glEnd()`, in order. -/
def bglBresCircle (r : Int) (q : Quadrant) : List (Int × Int) :=
  (bresLoop (bresInit r)).flatMap (fun s => symmPlotPoints s.x s.y q)

/-- The relation between the decision variables and the position that the loop
of `bglBresCircle(r, q)` maintains while no `int` computation leaves the 32-bit
range, with the error bound, at the positions where the loop plots. -/
def BresInv (r : Int) (s : BresState) : Prop :=
  0 ≤ s.x ∧ s.y ≤ r ∧
  (s.x ≤ s.y →
    s.g = 2 * (s.x * s.x + s.y * s.y - r * r) + 4 * s.x - 2 * s.y + 3 ∧
    s.d = 4 * (s.x - s.y) + 10 ∧
    s.ri = 4 * s.x + 6 ∧
    -s.y ≤ s.x * s.x + s.y * s.y - r * r ∧ s.x * s.x + s.y * s.y - r * r ≤ s.y)

/-! ## Field geometry (glextra.cc, lines 122-227) -/

/-- Modelled from the spec: the field-dimension constants `BSmart::Field::...` of
`libbsmart/field.h` (header absent), "an immutable set of dimension constants
(half width/height, goal width/depth, defense radius/line, penalty-mark
distance, center radius, robot/ball radius)".  They are integers and are a
parameter of every routine that reads them. -/
structure Field where
  half_field_width : Int
  half_field_height : Int
  half_width : Int
  half_height : Int
  defense_line : Int
  defense_radius : Int
  goal_width : Int
  goal_depth : Int
  penalty_mark_distance : Int
  center_radius : Int
  robot_radius : Int
  ball_radius : Int
deriving DecidableEq, Repr

/-- A position of the drawing plane.  The `float` arguments of the source are
integers or halves of integers; they are kept as exact rationals. -/
abbrev Vec2 := ℚ × ℚ

/-- The current transform, as far as the renderer builds it: products of axis
scalings and translations, `p ↦ (sx * p.1 + tx, sy * p.2 + ty)`. -/
structure Transform where
  sx : ℚ
  sy : ℚ
  tx : ℚ
  ty : ℚ
deriving DecidableEq, Repr

/-- The identity transform. -/
def Transform.identity : Transform := ⟨1, 1, 0, 0⟩

/-- The image of a vertex under a transform. -/
def Transform.apply (m : Transform) (p : Vec2) : Vec2 :=
  (m.sx * p.1 + m.tx, m.sy * p.2 + m.ty)

/-- A primitive handed to the rendering surface, with its vertices already
transformed: `GL_POINTS`, `GL_LINE_STRIP`, `GL_LINES` and the rectangle of
`glRectf`, given by two opposite corners. -/
inductive Prim where
  | points (vs : List Vec2)
  | lineStrip (vs : List Vec2)
  | lines (vs : List Vec2)
  | rect (a b : Vec2)
deriving DecidableEq, Repr

/-- The part of the OpenGL state the field renderer acts on: the current
transform, the matrix stack and the primitives emitted so far.  Colour, line
width and the attribute stack are left out: they do not change which points
are drawn. -/
structure GLState where
  matrix : Transform
  stack : List Transform
  out : List Prim
deriving DecidableEq, Repr

/-- The state at the start of a frame, in field coordinates centred at midfield. -/
def GLState.init : GLState := ⟨Transform.identity, [], []⟩

/-- The call `glPushMatrix()`. -/
def glPushMatrix (s : GLState) : GLState :=
  { s with stack := s.matrix :: s.stack }

/-- The call `glPopMatrix()`; on an empty stack OpenGL raises an error flag and leaves
the state unchanged. -/
def glPopMatrix (s : GLState) : GLState :=
  match s.stack with
  | [] => s
  | m :: rest => { s with matrix := m, stack := rest }

/-- The call `glTranslatef(a, b, _)`: the current transform is multiplied on the right by
the translation. -/
def glTranslatef (a b : ℚ) (s : GLState) : GLState :=
  { s with matrix :=
      { sx := s.matrix.sx, sy := s.matrix.sy,
        tx := s.matrix.sx * a + s.matrix.tx, ty := s.matrix.sy * b + s.matrix.ty } }

/-- The call `glScalef(a, b, _)`: the current transform is multiplied on the right by the
scaling. -/
def glScalef (a b : ℚ) (s : GLState) : GLState :=
  { s with matrix :=
      { sx := s.matrix.sx * a, sy := s.matrix.sy * b, tx := s.matrix.tx, ty := s.matrix.ty } }

/-- A `glBegin(mode) ... glEnd()` block with the given vertices. -/
def glEmit (mode : List Vec2 → Prim) (vs : List Vec2) (s : GLState) : GLState :=
  { s with out := s.out ++ [mode (vs.map s.matrix.apply)] }

/-- The call `glRectf(x1, y1, x2, y2)`. -/
def glRectf (x1 y1 x2 y2 : ℚ) (s : GLState) : GLState :=
  { s with out := s.out ++ [Prim.rect (s.matrix.apply (x1, y1)) (s.matrix.apply (x2, y2))] }

/-- A `glVertex2i` argument pair as a position. -/
def vertex2i (p : Int × Int) : Vec2 := ((p.1 : ℚ), (p.2 : ℚ))

/-- The routine `GLExtra::bglBresCircle(r, q)` as a drawing call: the points of
`bglBresCircle` inside `glBegin(GL_POINTS) ... glEnd()`. -/
def drawBresCircle (r : Int) (q : Quadrant) (s : GLState) : GLState :=
  glEmit Prim.points ((bglBresCircle r q).map vertex2i) s

/-- The routine `GLExtra::bglPoint(x, y, sz)` (lines 122-125). -/
def bglPoint (x y sz : ℚ) (s : GLState) : GLState :=
  let off := sz * (1 / 2)
  glRectf (x - off) (y - off) (x + off) (y + off) s

/-- The routine `GLExtra::draw_defense_area(offset)` (lines 172-184). -/
def draw_defense_area (F : Field) (offset : Int) (s : GLState) : GLState :=
  let half_dline : ℚ := (F.defense_line : ℚ) * (1 / 2)
  let s := glPushMatrix s
  let s := glTranslatef (-(F.half_field_width : ℚ)) half_dline s
  let s := drawBresCircle (F.defense_radius + offset) Q_I s
  let s := glEmit Prim.lines
    [vertex2i (F.defense_radius + offset, 0),
     vertex2i (F.defense_radius + offset, -F.defense_line)] s
  let s := glTranslatef 0 (-(F.defense_line : ℚ)) s
  let s := drawBresCircle (F.defense_radius + offset) Q_IV s
  glPopMatrix s

/-- The routine `GLExtra::draw_goal()` (lines 190-202); `goal_width / 2` is the truncating
division of C++. -/
def draw_goal (F : Field) (s : GLState) : GLState :=
  let half_goal_width : Int := Int.tdiv F.goal_width 2
  let goal_back : Int := F.half_field_width + F.goal_depth
  glEmit Prim.lineStrip
    [vertex2i (F.half_field_width, -half_goal_width),
     vertex2i (goal_back, -half_goal_width),
     vertex2i (goal_back, half_goal_width),
     vertex2i (F.half_field_width, half_goal_width)] s

/-- The routine `GLExtra::draw_marks()` (lines 208-227). -/
def draw_marks (F : Field) (s : GLState) : GLState :=
  let pt : ℚ := ((F.half_field_width - F.penalty_mark_distance : Int) : ℚ)
  let s := drawBresCircle F.center_radius Q_ALL s
  let s := bglPoint 0 0 20 s
  let s := bglPoint pt 0 20 s
  let s := draw_goal F s
  let s := glPushMatrix s
  let s := glScalef (-1) (-1) s
  let s := bglPoint pt 0 20 s
  let s := draw_goal F s
  glPopMatrix s

/-- The routine `GLExtra::bglDrawField()` (lines 131-165). -/
def bglDrawField (F : Field) (s : GLState) : GLState :=
  let s := glEmit Prim.lineStrip
    [vertex2i (0, -F.half_field_height),
     vertex2i (0, F.half_field_height),
     vertex2i (-F.half_field_width, F.half_field_height),
     vertex2i (-F.half_field_width, -F.half_field_height),
     vertex2i (F.half_field_width, -F.half_field_height),
     vertex2i (F.half_field_width, F.half_field_height),
     vertex2i (0, F.half_field_height)] s
  let s := glEmit Prim.lineStrip
    [vertex2i (-F.half_width, F.half_height),
     vertex2i (F.half_width, F.half_height),
     vertex2i (F.half_width, -F.half_height),
     vertex2i (-F.half_width, -F.half_height),
     vertex2i (-F.half_width, F.half_height)] s
  let s := glPushMatrix s
  let s := draw_defense_area F 0 s
  let s := glScalef (-1) 1 s
  let s := draw_defense_area F 0 s
  let s := glPopMatrix s
  draw_marks F s

/-- The point `p` lies on the straight segment from `a` to `b`. -/
def onSegment (a b p : Vec2) : Prop :=
  ∃ t : ℚ, 0 ≤ t ∧ t ≤ 1 ∧ p = (a.1 + t * (b.1 - a.1), a.2 + t * (b.2 - a.2))

/-- The points of a `GL_LINE_STRIP`: the segments between consecutive vertices. -/
def stripCovers : List Vec2 → Vec2 → Prop
  | a :: b :: rest, p => onSegment a b p ∨ stripCovers (b :: rest) p
  | _, _ => False

/-- The points of a `GL_LINES` block: the segments between the vertices of each
successive pair. -/
def linesCovers : List Vec2 → Vec2 → Prop
  | a :: b :: rest, p => onSegment a b p ∨ linesCovers rest p
  | _, _ => False

/-- The set of points a primitive draws. -/
def Prim.covers : Prim → Vec2 → Prop
  | Prim.points vs, p => p ∈ vs
  | Prim.lineStrip vs, p => stripCovers vs p
  | Prim.lines vs, p => linesCovers vs p
  | Prim.rect a b, p =>
      min a.1 b.1 ≤ p.1 ∧ p.1 ≤ max a.1 b.1 ∧ min a.2 b.2 ≤ p.2 ∧ p.2 ≤ max a.2 b.2

/-- The set of points a sequence of primitives draws. -/
def drawn (ps : List Prim) (p : Vec2) : Prop := ∃ P ∈ ps, P.covers p

/-- The reflection across the vertical axis, `(x, y) ↦ (-x, y)`. -/
def mirror (p : Vec2) : Vec2 := (-p.1, p.2)

/-- The primitive with every vertex replaced by its image under `f`. -/
def Prim.mapVertices (f : Vec2 → Vec2) : Prim → Prim
  | Prim.points vs => Prim.points (vs.map f)
  | Prim.lineStrip vs => Prim.lineStrip (vs.map f)
  | Prim.lines vs => Prim.lines (vs.map f)
  | Prim.rect a b => Prim.rect (f a) (f b)

/-- The point set `B` is exactly the image of the point set `A` under `mirror`. -/
def IsMirrorImage (A B : Vec2 → Prop) : Prop :=
  ∀ p, B p ↔ ∃ p0, A p0 ∧ p = mirror p0

/-! ## Object state aggregation (glextra.cc, lines 232-253) -/

/-- Modelled from the spec: `BSmart::Int_Vector` (header absent), a pair of integers
read as `.x` and `.y`. -/
structure Int_Vector where
  x : Int
  y : Int
deriving DecidableEq, Repr

/-- Modelled from the spec: the pose of a tracked object (header absent), read as
`pos.x`, `pos.y`, `pos.z` and `pos.rotation`.  The `double` values are only
stored, compared with zero and passed on; they are kept as rationals. -/
structure Pose where
  x : ℚ
  y : ℚ
  z : ℚ
  rotation : ℚ
deriving DecidableEq, Repr

/-- Modelled from the spec: a robot percept, `{x, y, color, rotation, rotation_known}`
(header absent). -/
structure Robot_Percept where
  x : Int
  y : Int
  color : Int
  rotation : ℚ
  rotation_known : Bool
deriving DecidableEq, Repr

/-- Modelled from the spec: a robot sample or model, `{team, id, pos}` (header absent). -/
structure Robot_Sample where
  team : Int
  id : Int
  pos : Pose
deriving DecidableEq, Repr

/-- Modelled from the spec: a ball percept, `{x, y}` (header absent). -/
structure Ball_Percept where
  x : ℚ
  y : ℚ
deriving DecidableEq, Repr

/-- Modelled from the spec: the ball model, `{pos, last_touched_robot}` (header absent). -/
structure Ball_Sample where
  pos : Pose
  last_touched_robot : Int_Vector
deriving DecidableEq, Repr

/-- Modelled from the spec: a line segment `{p1, p2}` (header absent). -/
structure Line where
  p1 : Int_Vector
  p2 : Int_Vector
deriving DecidableEq, Repr

/-- Modelled from the spec: a broken-rule event (header absent), with the fields the
renderer reads: `rule_number`, `when_broken`, `rule_breaker` (team, id),
`freekick_pos`, `circle_around_ball`, `defense_area`, `line_for_smth` and
`standing`. -/
structure Broken_Rule where
  rule_number : Int
  when_broken : Int
  rule_breaker : Int_Vector
  freekick_pos : Int_Vector
  circle_around_ball : Bool
  defense_area : Int
  line_for_smth : Line
  standing : Int_Vector
deriving DecidableEq, Repr

/-- Modelled from the spec: the data-access contract of the tracking and rule
collaborators (`Filter_Data`, header absent), one field per accessor, with the
roster bounds `NUMBER_OF_TEAMS` and `NUMBER_OF_IDS`. -/
structure Filter_Data where
  NUMBER_OF_TEAMS : Nat
  NUMBER_OF_IDS : Nat
  get_current_ball_percepts : List Ball_Percept
  get_ball_model : Ball_Sample
  get_robot_seen : Nat → Nat → Bool
  get_current_robot_percepts : Nat → Nat → List Robot_Percept
  get_robot_model : Nat → Nat → Robot_Sample
  get_broken_rules : List Broken_Rule
  get_internal_play_states : Int_Vector
  get_timestamp : Int

/-- The data members of a `GLExtra` object that survive from one call to the
next (the scratch buffers and per-frame snapshots). -/
structure Buffers where
  current_ball_percepts : List Ball_Percept
  ball_samples : List Ball_Sample
  ball_model : Ball_Sample
  tmp_perc_robots : List Robot_Percept
  current_robot_percepts : List Robot_Percept
  tmp_sample_robots : List Robot_Sample
  robot_samples : List Robot_Sample
  robot_models : List Robot_Sample
  broken_rule_vector : List Broken_Rule
  internal_play_states : Int_Vector
  cur_timestamp : Int
deriving DecidableEq, Repr

/-- The body of the inner loop of `bglDrawFilterData` for one slot
(lines 245-251). -/
def aggregateSlot (fd : Filter_Data) (team id : Nat) (b : Buffers) : Buffers :=
  if fd.get_robot_seen team id then
    let tmp := fd.get_current_robot_percepts team id
    { b with
      tmp_perc_robots := tmp
      current_robot_percepts := b.current_robot_percepts ++ tmp
      robot_models := b.robot_models ++ [fd.get_robot_model team id] }
  else b

/-- The inner loop `for (int id = 0; id < NUMBER_OF_IDS; ++id)` (line 244). -/
def aggregateIds (fd : Filter_Data) (team : Nat) (b : Buffers) : Buffers :=
  (List.range fd.NUMBER_OF_IDS).foldl (fun b id => aggregateSlot fd team id b) b

/-- The outer loop `for (int team = 0; team < NUMBER_OF_TEAMS; ++team)` (line 243). -/
def aggregateTeams (fd : Filter_Data) (b : Buffers) : Buffers :=
  (List.range fd.NUMBER_OF_TEAMS).foldl (fun b team => aggregateIds fd team b) b

/-- The aggregation step of `GLExtra::bglDrawFilterData()` (lines 233-253):
the buffers are cleared (`robot_samples` is not: its `clear()` is commented
out), the ball data is fetched and the roster is flattened. -/
def bglDrawFilterData_aggregate (fd : Filter_Data) (b : Buffers) : Buffers :=
  let b := { b with
    tmp_perc_robots := []
    current_robot_percepts := []
    tmp_sample_robots := []
    robot_models := [] }
  let b := { b with
    current_ball_percepts := fd.get_current_ball_percepts
    ball_model := fd.get_ball_model }
  aggregateTeams fd b

/-- The slots of the roster in the order of the two loops: team-major, id
ascending. -/
def roster (fd : Filter_Data) : List (Nat × Nat) :=
  (List.range fd.NUMBER_OF_TEAMS).flatMap
    (fun team => (List.range fd.NUMBER_OF_IDS).map (fun id => (team, id)))

/-- The slots that `get_robot_seen` reports as seen, in roster order. -/
def seenSlots (fd : Filter_Data) : List (Nat × Nat) :=
  (roster fd).filter (fun slot => fd.get_robot_seen slot.1 slot.2)

/-! ## Decimal rendering (glextra.cc, lines 482-506) -/

/-- The `while (tmp > 0)` loop of `int_to_string` (lines 487-491) on the state
`(len, tmp, string)`; `tmp /= 10` is the truncating division of C++. -/
def int_to_string_count (len tmp : Int) (string : List Char) : Int × List Char :=
  if 0 < tmp then int_to_string_count (len + 1) (Int.tdiv tmp 10) (string ++ [' '])
  else (len, string)
termination_by tmp.toNat
decreasing_by
  rename_i h
  have h10 : Int.tdiv tmp 10 = tmp / 10 := Int.tdiv_eq_ediv (by omega) (by omega)
  rw [h10]
  omega

/-- The body of the `for` loop of `int_to_string` (lines 500-502) for one `j`, on
the state `(tmp, string)`; `%` and `/` are those of C++. -/
def int_to_string_digit (len : Int) (st : Int × List Char) (j : Nat) : Int × List Char :=
  let a := Int.tmod st.1 10
  (Int.tdiv st.1 10, st.2.set (len - (j : Int) - 1).toNat (Char.ofNat (a + 48).toNat))

/-- The routine `GLExtra::int_to_string(string, i)`: the new content of `string` and the
returned length.  The old content of `string` is discarded by `string = ""`
(line 485). -/
def int_to_string (_string : String) (i : Int) : String × Int :=
  let string : List Char := []
  let (len, string) := int_to_string_count 0 i string
  let (len, string) := if i = 0 then ((1 : Int), [' ']) else (len, string)
  let st := (List.range len.toNat).foldl (int_to_string_digit len) (i, string)
  (String.mk st.2, len)

/-- The character `(char) a + 48` of a decimal digit `a`. -/
def decimalChar (d : Nat) : Char := Char.ofNat (d + 48)

/-- A character written by `int_to_string`: the blank of the first loop or
`(char) a + 48` for a remainder `a` of a division by 10. -/
def IsDigitLoopChar (c : Char) : Prop :=
  c = ' ' ∨ ∃ n : Nat, 39 ≤ n ∧ n ≤ 57 ∧ c = Char.ofNat n

/-! ## Rule violation overlay (glextra.cc, lines 521-662) -/

/-- The freekick marker of lines 556-568: the origin is moved to `centre` and
the `GL_LINES` block holds `vertices`. -/
structure Crosshair where
  centre : Int × Int
  vertices : List (Int × Int)
deriving DecidableEq, Repr

/-- What one pass through the event loop of `bglDrawRulesystemData` draws, one
field per block of the loop body, for the event `event` at text row
`rule_counter`.

* `rings`: the centres of the breaker highlight rings (lines 536-552), one for
  each entry of the robot-model list that matches the breaker reference;
* `crosshair`: the freekick marker (lines 555-569), if drawn;
* `ball_circle`: the centre of the circle around the ball (lines 572-585), if drawn;
* `defense_area`: `some false` for `draw_defense_area(200)`, `some true` for the
  same call under `glScalef(-1, 1, 1)` (lines 588-597);
* `line`: the end points of the segment (lines 600-610), if drawn;
* `warned`: whether the "Bad index for rule" warning is logged (lines 623-625);
* `text`: the text line (lines 620-658); `none` stands for a read outside the
  rule-name table (undefined behaviour in C++). -/
structure RenderedEvent where
  event : Broken_Rule
  rule_counter : Nat
  rings : List (ℚ × ℚ)
  crosshair : Option Crosshair
  ball_circle : Option (ℚ × ℚ)
  defense_area : Option Bool
  line : Option (Int_Vector × Int_Vector)
  warned : Bool
  text : Option String
deriving DecidableEq, Repr

/-- The loop over the robot models of lines 536-552: a ring around every model
whose team and id equal the breaker reference. -/
def breakerRings (robot_models : List Robot_Sample) (brit : Broken_Rule) : List (ℚ × ℚ) :=
  robot_models.flatMap (fun it =>
    if it.team = brit.rule_breaker.x ∧ it.id = brit.rule_breaker.y then [(it.pos.x, it.pos.y)]
    else [])

/-- The freekick marker of lines 555-569. -/
def freekickCrosshair (brit : Broken_Rule) : Option Crosshair :=
  if brit.freekick_pos.x ≠ -1 then
    let l : Int := 90
    some { centre := (brit.freekick_pos.x, brit.freekick_pos.y)
           vertices := [(-l, -l), (l, l), (-l, l), (l, -l)] }
  else none

/-- The circle around the ball of lines 572-585. -/
def ballCircle (ball_model : Ball_Sample) (brit : Broken_Rule) : Option (ℚ × ℚ) :=
  if brit.circle_around_ball then some (ball_model.pos.x, ball_model.pos.y) else none

/-- The defense-area highlight of lines 588-597. -/
def defenseHighlight (brit : Broken_Rule) : Option Bool :=
  if brit.defense_area = 0 then some false
  else if brit.defense_area = 1 then some true
  else none

/-- The line segment of lines 600-610. -/
def lineSegment (brit : Broken_Rule) : Option (Int_Vector × Int_Vector) :=
  if brit.line_for_smth.p1.x ≠ -1 then some (brit.line_for_smth.p1, brit.line_for_smth.p2)
  else none

/-- A read `rulenames[i]` of the rule-name table `Global::rulenames` (declared
in the absent `global.h`, taken as a parameter): `none` outside the table. -/
def rulenamesAt (rulenames : List String) (i : Int) : Option String :=
  if i < 0 then none else rulenames[i.toNat]?

/-- The rule-name lookup of lines 620-628: the name and whether the warning is
logged. -/
def ruleName (rulenames : List String) (brit : Broken_Rule) : Option String × Bool :=
  if brit.rule_number < 1 ∨ brit.rule_number > 42 then (some "unknown", true)
  else (rulenamesAt rulenames (brit.rule_number - 1), false)

/-- The team colour word of lines 631-634 and 645-648. -/
def teamColour (brit : Broken_Rule) : String :=
  if brit.rule_breaker.x = 0 then "Yellow " else "Blue "

/-- Lines 629-651: what becomes of `string`, which holds the rule name, with
`tmp` initially empty (line 618). -/
def ruleSuffix (brit : Broken_Rule) (string : String) : String :=
  let tmp := ""
  if brit.rule_number = 29 then
    let string := string ++ " by "
    let string := string ++ teamColour brit
    let tmp := (int_to_string tmp brit.rule_breaker.y).1
    let string := string ++ tmp
    let string := string ++ " New Standing: "
    let tmp := (int_to_string tmp brit.standing.x).1
    let string := string ++ tmp
    let string := string ++ ":"
    let tmp := (int_to_string tmp brit.standing.y).1
    string ++ tmp
  else if brit.rule_breaker.x ≠ -1 then
    let string := string ++ " by "
    let string := string ++ teamColour brit
    let tmp := (int_to_string tmp brit.rule_breaker.y).1
    string ++ tmp
  else string

/-- The text line of lines 618-651. -/
def ruleText (rulenames : List String) (brit : Broken_Rule) : Option String :=
  (ruleName rulenames brit).1.map (ruleSuffix brit)

/-- One pass through the body of the event loop (lines 535-661). -/
def drawEvent (rulenames : List String) (robot_models : List Robot_Sample)
    (ball_model : Ball_Sample) (rule_counter : Nat) (brit : Broken_Rule) : RenderedEvent :=
  { event := brit
    rule_counter := rule_counter
    rings := breakerRings robot_models brit
    crosshair := freekickCrosshair brit
    ball_circle := ballCircle ball_model brit
    defense_area := defenseHighlight brit
    line := lineSegment brit
    warned := (ruleName rulenames brit).2
    text := ruleText rulenames brit }

/-- The event loop of lines 529-662 over the reverse iterator: `rest` is what
is still ahead of `brit`, newest first; the `break` of line 532 ends the loop. -/
def ruleLoop (rulenames : List String) (robot_models : List Robot_Sample)
    (ball_model : Ball_Sample) (cur_timestamp : Int) :
    Nat → List Broken_Rule → List RenderedEvent
  | _, [] => []
  | rule_counter, brit :: rest =>
    if cur_timestamp - brit.when_broken > 5000 then []
    else drawEvent rulenames robot_models ball_model rule_counter brit ::
      ruleLoop rulenames robot_models ball_model cur_timestamp (rule_counter + 1) rest

/-- The buffers after `GLExtra::bglDrawRulesystemData()` has fetched the rule
log, the play states and the timestamp (lines 522-525). -/
def bglDrawRulesystemData_fetch (fd : Filter_Data) (b : Buffers) : Buffers :=
  { b with
    broken_rule_vector := fd.get_broken_rules
    internal_play_states := fd.get_internal_play_states
    cur_timestamp := fd.get_timestamp }

/-- The routine `GLExtra::bglDrawRulesystemData()`, lines 522-662: what the event loop
draws, pass by pass.  The robot models and the ball model are the ones the
last aggregation left in the buffers.  The two play-state labels drawn after
the loop (lines 664-700) are not part of the model. -/
def bglDrawRulesystemData (rulenames : List String) (fd : Filter_Data) (b : Buffers) :
    List RenderedEvent :=
  let b := bglDrawRulesystemData_fetch fd b
  ruleLoop rulenames b.robot_models b.ball_model b.cur_timestamp 0 b.broken_rule_vector.reverse

/-- The age of an event at the current timestamp. -/
def age (cur_timestamp : Int) (e : Broken_Rule) : Int := cur_timestamp - e.when_broken

/-- The log is ordered oldest to newest. -/
def LogOrdered (log : List Broken_Rule) : Prop :=
  log.Pairwise (fun a b => a.when_broken ≤ b.when_broken)

/-! ## Robot drawing (glextra.cc, lines 341-424) -/

/-- Modelled from the spec: the colour classification `SSLRefbox::Colors::Color`
(header absent): the enumerators the source names, and `other` for any further
value of the type. -/
inductive Color where
  | YELLOW
  | BLUE
  | WHITE
  | RED
  | ORANGE
  | MAGENTA
  | other (code : Nat)
deriving DecidableEq, Repr

/-- The primitive mode of the first `glBegin` block of `draw_robot`. -/
inductive BeginMode where
  | GL_TRIANGLE_FAN
  | GL_LINE_STRIP
deriving DecidableEq, Repr

/-- A vertex of the first block of `draw_robot`, by the call that emits it:
`origin` is `glVertex3d(0., 0., 0.)` of the `switch` (lines 350, 356, 363, 370),
`perimeter f` is `glVertex3d(cos(f) * robot_radius, sin(f) * robot_radius, 0)`
of the loop (line 387), kept as its angle `f`.  The type `D` stands for
`double`. -/
inductive RobotVertex (D : Type) where
  | origin
  | perimeter (f : D)
deriving DecidableEq, Repr

/-- Whether a vertex is one of the loop. -/
def RobotVertex.isPerimeter {D : Type} : RobotVertex D → Bool
  | RobotVertex.origin => false
  | RobotVertex.perimeter _ => true

/-- The identity label of lines 406-423: the colour set for the team (`none` if
neither branch of lines 411-415 runs), the raster position and the characters
handed to `glutBitmapCharacter`. -/
structure RobotLabel where
  colour : Option (ℚ × ℚ × ℚ)
  raster_pos : Int × Int
  chars : List Char
deriving DecidableEq, Repr

/-- What one call of `draw_robot` hands to the rendering surface: the
translation, the colour, the mode, the vertices of the first block in
order, whether the "unknown robot" warning is logged, the corners of the
last-touched square if drawn, and the label if drawn. -/
structure RobotDraw (D : Type) where
  position : Int × Int
  colour : ℚ × ℚ × ℚ
  mode : BeginMode
  warned : Bool
  vertices : List (RobotVertex D)
  touched : Option (List (Int × Int))
  label : Option RobotLabel
deriving DecidableEq, Repr

/-- The `switch (color)` of lines 346-379: colour, mode, whether the warning
is logged, and the vertices emitted before the loop. -/
def robotSwitch {D : Type} [Zero D] [DecidableEq D] (color : Color) (rotation : D) :
    (ℚ × ℚ × ℚ) × BeginMode × Bool × List (RobotVertex D) :=
  match color with
  | Color.YELLOW => ((1, 1, 0), BeginMode.GL_TRIANGLE_FAN, false, [RobotVertex.origin])
  | Color.BLUE => ((0, 0, 1), BeginMode.GL_TRIANGLE_FAN, false, [RobotVertex.origin])
  | Color.WHITE =>
    ((1, 1, 1), BeginMode.GL_LINE_STRIP, false,
      if rotation ≠ 0 then [RobotVertex.origin] else [])
  | Color.RED =>
    ((1, 0, 0), BeginMode.GL_LINE_STRIP, false,
      if rotation ≠ 0 then [RobotVertex.origin] else [])
  | _ => ((0, 0, 0), BeginMode.GL_TRIANGLE_FAN, true, [])

/-- The loop `for (int i = 0; i <= 12; ++i)` of lines 381-389 on the state
`(f, vertices emitted so far)`; `step` is the value of the constant expression
`2 * BSmart::pi / 12` (`BSmart::pi` is declared in the absent
`libbsmart/math.h`). -/
def robotPerimeterLoop {D : Type} [Add D] (step : D) (rotation : D)
    (emitted : List (RobotVertex D)) : List (RobotVertex D) :=
  ((List.range (12 + 1)).foldl
    (fun (st : D × List (RobotVertex D)) _ =>
      (st.1 + step, st.2 ++ [RobotVertex.perimeter st.1]))
    (rotation, emitted)).2

/-- The last-touched square of lines 393-401; the field constants are integers,
so `robot_radius / 2` is the truncating division. -/
def robotTouchedSquare (F : Field) (last_touched : Bool) : Option (List (Int × Int)) :=
  if last_touched then
    some [(Int.tdiv (-F.robot_radius) 2, Int.tdiv F.robot_radius 2),
          (Int.tdiv F.robot_radius 2, Int.tdiv F.robot_radius 2),
          (Int.tdiv F.robot_radius 2, Int.tdiv (-F.robot_radius) 2),
          (Int.tdiv (-F.robot_radius) 2, Int.tdiv (-F.robot_radius) 2)]
  else none

/-- The identity label of lines 406-423; `glutBitmapWidth0` is the value of
`glutBitmapWidth(GLUT_BITMAP_HELVETICA_18, '0')`. -/
def robotLabel (F : Field) (glutBitmapWidth0 : Int) (x y team id : Int) : Option RobotLabel :=
  if id ≠ -1 then
    let string := ""
    let (string, len) := int_to_string string id
    let colour : Option (ℚ × ℚ × ℚ) :=
      if team = 1 then some (1, 1, 1) else if team = 0 then some (0, 0, 0) else none
    let bitmapWidth := glutBitmapWidth0 * len
    some { colour := colour
           raster_pos := (x - Int.tdiv (F.robot_radius - bitmapWidth) 2, y - 55)
           chars := (List.range len.toNat).map (fun j => string.data.getD j ' ') }
  else none

/-- The routine `GLExtra::draw_robot(x, y, color, rotation, team, id, last_touched)`
(lines 341-424). -/
def draw_robot {D : Type} [Add D] [Zero D] [DecidableEq D] (F : Field) (step : D)
    (glutBitmapWidth0 : Int) (x y : Int) (color : Color) (rotation : D) (team id : Int)
    (last_touched : Bool) : RobotDraw D :=
  let sw := robotSwitch color rotation
  { position := (x, y)
    colour := sw.1
    mode := sw.2.1
    warned := sw.2.2.1
    vertices := robotPerimeterLoop step rotation sw.2.2.2
    touched := robotTouchedSquare F last_touched
    label := robotLabel F glutBitmapWidth0 x y team id }

/-- The thirteen perimeter vertices at the angles `rotation + k * step` for
`k = 0..12`, in exact arithmetic. -/
def perimeterVertices {D : Type} [AddMonoid D] (step : D) (rotation : D) :
    List (RobotVertex D) :=
  (List.range 13).map (fun k => RobotVertex.perimeter (rotation + k • step))

/-! ## Sample inputs -/

/-- A rule-name table with 42 entries, `"rule 1"` to `"rule 42"`. -/
def sampleRulenames : List String :=
  (List.range 42).map (fun i => "rule " ++ Nat.repr (i + 1))

/-- An event with the given rule number, timestamp and breaker reference, all
optional parts absent, standing 1:0. -/
def sampleEvent (rule_number when_broken team id : Int) : Broken_Rule :=
  { rule_number := rule_number
    when_broken := when_broken
    rule_breaker := ⟨team, id⟩
    freekick_pos := ⟨-1, -1⟩
    circle_around_ball := false
    defense_area := -1
    line_for_smth := ⟨⟨-1, -1⟩, ⟨-1, -1⟩⟩
    standing := ⟨1, 0⟩ }

/-- A ball model at midfield. -/
def sampleBall : Ball_Sample := ⟨⟨0, 0, 0, 0⟩, ⟨-1, -1⟩⟩

/-- Collaborator data with the given roster contents, rule log and timestamp. -/
def sampleData (seen : Nat → Nat → Bool) (percepts : Nat → Nat → List Robot_Percept)
    (log : List Broken_Rule) (now : Int) : Filter_Data :=
  { NUMBER_OF_TEAMS := 2
    NUMBER_OF_IDS := 12
    get_current_ball_percepts := []
    get_ball_model := sampleBall
    get_robot_seen := seen
    get_current_robot_percepts := percepts
    get_robot_model := fun team id => ⟨team, id, ⟨0, 0, 0, 0⟩⟩
    get_broken_rules := log
    get_internal_play_states := ⟨0, 0⟩
    get_timestamp := now }

/-- Buffers holding the given robot models and nothing else. -/
def sampleBuffers (models : List Robot_Sample) : Buffers :=
  { current_ball_percepts := []
    ball_samples := []
    ball_model := sampleBall
    tmp_perc_robots := []
    current_robot_percepts := []
    tmp_sample_robots := []
    robot_samples := []
    robot_models := models
    broken_rule_vector := []
    internal_play_states := ⟨0, 0⟩
    cur_timestamp := 0 }

/-- The log of the violation-window example at time 10000: ages 9000, 5001,
4999 and 100, oldest first. -/
def windowLog : List Broken_Rule :=
  [sampleEvent 1 1000 0 1, sampleEvent 2 4999 0 2, sampleEvent 3 5001 1 3,
   sampleEvent 4 9900 1 4]

/-! # Theorems -/

/-- The distance `y + 1 - x` shrinks with every pass through the loop body. -/
theorem bresStep_measure (s : BresState) (h : s.x ≤ s.y) :
    ((bresStep s).y + 1 - (bresStep s).x).toNat < (s.y + 1 - s.x).toNat := by
  unfold bresStep
  split <;> simp only <;> omega

/-! ### Loop invariants -/

theorem bresLoop_of_le {s : BresState} (h : s.x ≤ s.y) :
    bresLoop s = s :: bresLoop (bresStep s) := by
  rw [bresLoop, if_pos h]

theorem bresLoop_of_not_le {s : BresState} (h : ¬ s.x ≤ s.y) : bresLoop s = [] := by
  rw [bresLoop, if_neg h]

/-- A property that holds initially and is carried over every pass whose start
state enters the loop holds at every state in which the loop body is entered;
the loop guard holds there too. -/
theorem bresLoop_invariant (P : BresState → Prop)
    (hstep : ∀ s, P s → s.x ≤ s.y → P (bresStep s)) :
    ∀ (n : Nat) (s0 : BresState), (s0.y + 1 - s0.x).toNat ≤ n → P s0 →
      ∀ s ∈ bresLoop s0, P s ∧ s.x ≤ s.y := by
  intro n
  induction n with
  | zero =>
    intro s0 hn _ s hs
    have hgt : ¬ s0.x ≤ s0.y := by omega
    rw [bresLoop_of_not_le hgt] at hs
    simp at hs
  | succ n ih =>
    intro s0 hn h0 s hs
    by_cases hle : s0.x ≤ s0.y
    · rw [bresLoop_of_le hle] at hs
      rcases List.mem_cons.mp hs with rfl | hs
      · exact ⟨h0, hle⟩
      · have hm := bresStep_measure s0 hle
        exact ih (bresStep s0) (by omega) (hstep s0 h0 hle) s hs
    · rw [bresLoop_of_not_le hle] at hs
      simp at hs

/-- A value inside the 32-bit range is stored unchanged. -/
theorem wrap32_eq (v : Int) (hlo : -2147483648 ≤ v) (hhi : v < 2147483648) : wrap32 v = v := by
  unfold wrap32
  omega

/-- Each pass moves `x` up by one and `y` down by at most one, whatever the
decision variables hold. -/
theorem bresStep_xy_bounds (r : Int) (s : BresState) (h : 0 ≤ s.x ∧ s.y ≤ r) :
    0 ≤ (bresStep s).x ∧ (bresStep s).y ≤ r := by
  unfold bresStep
  split <;> simp only <;> omega

/-- At every state in which `bglBresCircle(r, q)` plots, `0 <= x <= y <= r`;
this does not depend on the decision variables. -/
theorem bresLoop_xy (r : Int) :
    ∀ s ∈ bresLoop (bresInit r), (0 ≤ s.x ∧ s.y ≤ r) ∧ s.x ≤ s.y :=
  bresLoop_invariant (fun s => 0 ≤ s.x ∧ s.y ≤ r)
    (fun s h _ => bresStep_xy_bounds r s h) _ _ (le_refl _)
    ⟨le_refl _, le_refl _⟩

theorem bresInv_init (r : Int) (hmax : r < 536870912) :
    BresInv r (bresInit r) := by
  refine ⟨le_refl _, le_refl _, ?_⟩
  intro hguard
  simp only [bresInit] at hguard
  have h2 : wrap32 (2 * r) = 2 * r := wrap32_eq _ (by omega) (by omega)
  have h4 : wrap32 (4 * r) = 4 * r := wrap32_eq _ (by omega) (by omega)
  have hg : wrap32 (3 - 2 * r) = 3 - 2 * r := wrap32_eq _ (by omega) (by omega)
  have hd : wrap32 (10 - 4 * r) = 10 - 4 * r := wrap32_eq _ (by omega) (by omega)
  have he : (0 : Int) * 0 + r * r - r * r = 0 := by ring
  simp only [bresInit, h2, h4, hg, hd]
  refine ⟨?_, ?_, ?_, ?_, ?_⟩
  · rw [he]; ring
  · ring
  · ring
  · omega
  · omega

theorem bresInv_step (r : Int) (hmax : r < 536870912) (s : BresState) (h : BresInv r s)
    (hle : s.x ≤ s.y) : BresInv r (bresStep s) := by
  obtain ⟨hx, hy, hin⟩ := h
  obtain ⟨hg, hd, hri, hlo, hhi⟩ := hin hle
  unfold bresStep
  split
  · rename_i hg0
    have e1 : (s.x + 1) * (s.x + 1) + (s.y - 1) * (s.y - 1) - r * r
        = (s.x * s.x + s.y * s.y - r * r) + 2 * s.x - 2 * s.y + 2 := by ring
    refine ⟨?_, ?_, ?_⟩
    · simp only; omega
    · simp only; omega
    · simp only
      intro hnext
      have wg : wrap32 (s.g + s.d) = s.g + s.d := wrap32_eq _ (by omega) (by omega)
      have wd : wrap32 (s.d + 8) = s.d + 8 := wrap32_eq _ (by omega) (by omega)
      have wri : wrap32 (s.ri + 4) = s.ri + 4 := wrap32_eq _ (by omega) (by omega)
      rw [wg, wd, wri, e1]
      refine ⟨?_, ?_, ?_, ?_, ?_⟩ <;> omega
  · rename_i hg0
    have e1 : (s.x + 1) * (s.x + 1) + s.y * s.y - r * r
        = (s.x * s.x + s.y * s.y - r * r) + 2 * s.x + 1 := by ring
    refine ⟨?_, ?_, ?_⟩
    · simp only; omega
    · simp only; omega
    · simp only
      intro hnext
      have hxr : s.x + 2 ≤ r ∨ r ≤ 2 := by
        by_cases hbig : s.x + 2 ≤ r
        · exact Or.inl hbig
        · right
          have hyr : s.y = r := by omega
          have hxr : s.x = r - 1 := by omega
          rw [hyr, hxr] at hhi
          by_contra hr3
          have h3 : 3 ≤ r := by omega
          nlinarith
      have wg : wrap32 (s.g + s.ri) = s.g + s.ri := wrap32_eq _ (by omega) (by omega)
      have wd : wrap32 (s.d + 4) = s.d + 4 := wrap32_eq _ (by omega) (by omega)
      have wri : wrap32 (s.ri + 4) = s.ri + 4 := wrap32_eq _ (by omega) (by omega)
      rw [wg, wd, wri, e1]
      refine ⟨?_, ?_, ?_, ?_, ?_⟩ <;> omega

/-- For a radius below 2^29, every state in which `bglBresCircle(r, q)` plots
satisfies the invariant and the loop guard. -/
theorem bresLoop_inv (r : Int) (hmax : r < 536870912) :
    ∀ s ∈ bresLoop (bresInit r), BresInv r s ∧ s.x ≤ s.y :=
  bresLoop_invariant (BresInv r) (bresInv_step r hmax) _ _ (le_refl _)
    (bresInv_init r hmax)

/-- For a negative radius the loop body is never entered. -/
theorem bresLoop_neg (r : Int) (hr : r < 0) : bresLoop (bresInit r) = [] :=
  bresLoop_of_not_le (by simp only [bresInit]; omega)

theorem mem_bglBresCircle {r : Int} {q : Quadrant} {p : Int × Int} :
    p ∈ bglBresCircle r q ↔ ∃ s ∈ bresLoop (bresInit r), p ∈ symmPlotPoints s.x s.y q := by
  simp [bglBresCircle, List.mem_flatMap]

/-- Every reflection plotted for `(x, y)` has the coordinates `±x, ±y` in one
of the two orders. -/
theorem symmPlotPoints_sq {x y : Int} {q : Quadrant} {p : Int × Int}
    (hp : p ∈ symmPlotPoints x y q) : p.1 * p.1 + p.2 * p.2 = x * x + y * y := by
  simp only [symmPlotPoints, List.mem_append] at hp
  rcases hp with ((h | h) | h) | h <;>
    (split at h
     · simp only [List.mem_cons, List.mem_singleton, List.not_mem_nil, or_false] at h
       rcases h with rfl | rfl <;> simp only <;> ring
     · simp at h)


/-! ### The arc rasterizer: error bound, symmetry, quadrants -/

theorem bresLoop_init_cons (r : Int) (hr : 0 ≤ r) :
    bresLoop (bresInit r) = bresInit r :: bresLoop (bresStep (bresInit r)) :=
  bresLoop_of_le (by simp only [bresInit]; exact hr)

theorem symmPlotPoints_Q_II (x y : Int) :
    symmPlotPoints x y Q_II = (symmPlotPoints x y Q_I).map (fun p => (-p.1, p.2)) := by
  simp [symmPlotPoints, Q_I, Q_II]

theorem symmPlotPoints_Q_III (x y : Int) :
    symmPlotPoints x y Q_III = (symmPlotPoints x y Q_I).map (fun p => (-p.1, -p.2)) := by
  simp [symmPlotPoints, Q_I, Q_III]

theorem symmPlotPoints_Q_IV (x y : Int) :
    symmPlotPoints x y Q_IV = (symmPlotPoints x y Q_I).map (fun p => (p.1, -p.2)) := by
  simp [symmPlotPoints, Q_I, Q_IV]

/-- If the plot call for one mask is the image of the plot call for another,
so is the whole point list. -/
theorem bglBresCircle_map (f : Int × Int → Int × Int) (q q0 : Quadrant)
    (h : ∀ x y, symmPlotPoints x y q = (symmPlotPoints x y q0).map f) (r : Int) :
    bglBresCircle r q = (bglBresCircle r q0).map f := by
  unfold bglBresCircle
  induction bresLoop (bresInit r) with
  | nil => rfl
  | cons s rest ih => rw [List.flatMap_cons, List.flatMap_cons, List.map_append, ih, h]

theorem mem_symmPlotPoints_Q_ALL {x y : Int} {p : Int × Int} :
    p ∈ symmPlotPoints x y Q_ALL ↔
      p = (x, y) ∨ p = (y, x) ∨ p = (-x, y) ∨ p = (-y, x) ∨
      p = (-x, -y) ∨ p = (-y, -x) ∨ p = (x, -y) ∨ p = (y, -x) := by
  simp [symmPlotPoints, Q_ALL, or_assoc]

/-- Claim C1, amended.  For every radius `r < 2^29`, in particular for
`0 <= r < 2^29`, and every quadrant mask `q`, every point `(px, py)` that
`bglBresCircle(r, q)` emits satisfies `|px*px + py*py - r*r| <= r`: the squared
distance from the centre is within `r` of `r*r`.  Below `2^29` the 32-bit
decision variables hold their exact values at every pass; for larger radii
they wrap around and nothing is claimed. -/
theorem bglBresCircle_error_le_radius (r : Int) (hmax : r < 2 ^ 29)
    (q : Quadrant) (p : Int × Int) (hp : p ∈ bglBresCircle r q) :
    |p.1 * p.1 + p.2 * p.2 - r * r| ≤ r := by
  obtain ⟨s, hs, hps⟩ := mem_bglBresCircle.mp hp
  have hmax2 : r < 536870912 := by simpa using hmax
  obtain ⟨⟨_, hy, hin⟩, hle⟩ := bresLoop_inv r hmax2 s hs
  obtain ⟨_, _, _, hlo, hhi⟩ := hin hle
  rw [symmPlotPoints_sq hps, abs_le]
  constructor <;> omega

/-- The point `(2, 3)` is emitted for radius 4 in quadrant I, and
`2*2 + 3*3 = 13` is 3 away from `4*4 = 16`. -/
theorem bglBresCircle_error_le_radius_witness :
    (4 : Int) < 2 ^ 29 ∧ ((2 : Int), (3 : Int)) ∈ bglBresCircle 4 Q_I ∧
      |(2 : Int) * 2 + 3 * 3 - 4 * 4| ≤ 4 :=
  ⟨by decide,
   by simp [bglBresCircle, bresInit, bresLoop, bresStep, wrap32, symmPlotPoints, Q_I],
   bglBresCircle_error_le_radius 4 (by decide) Q_I (2, 3)
    (by simp [bglBresCircle, bresInit, bresLoop, bresStep, wrap32, symmPlotPoints, Q_I])⟩

/-- Claim C1 as stated fails: for radius 4 and quadrant I the emitted points are
not all within 1 of the squared radius; `(2, 3)` is emitted and misses by 3. -/
theorem bglBresCircle_error_exceeds_one :
    ¬ (∀ p ∈ bglBresCircle 4 Q_I, |p.1 * p.1 + p.2 * p.2 - 4 * 4| ≤ 1) := by
  intro h
  have h23 : ((2 : Int), (3 : Int)) ∈ bglBresCircle 4 Q_I := by
    simp [bglBresCircle, bresInit, bresLoop, bresStep, wrap32, symmPlotPoints, Q_I]
  have := h (2, 3) h23
  simp only [abs_le] at this
  omega

/-- Outside the range of the amended claim the bound can fail: for the radius
`2^31 - 1` the decision variable starts at `g = 5` because `2 * r` wraps, so
the second pass plots at `(1, 2^31 - 2)`, whose squared distance from the
centre misses `r*r` by `2 * r - 2`. -/
theorem bglBresCircle_error_beyond_range :
    ((1 : Int), (2147483646 : Int)) ∈ bglBresCircle 2147483647 Q_I ∧
    ¬ (|(1 : Int) * 1 + 2147483646 * 2147483646 - 2147483647 * 2147483647| ≤ 2147483647) := by
  constructor
  · refine mem_bglBresCircle.mpr ⟨bresStep (bresInit 2147483647), ?_, ?_⟩
    · rw [bresLoop_init_cons 2147483647 (by decide)]
      refine List.mem_cons_of_mem _ ?_
      rw [bresLoop_of_le (by decide)]
      exact List.mem_cons_self _ _
    · decide
  · rw [abs_le]
    omega

/-- For every `int` radius the exact updates of `x` and `y` stay inside the
32-bit range at every pass: `x + 1 <= 2^31 - 1` and `y - 1 >= -1`. -/
theorem bresLoop_xy_in_range (r : Int) (hr : 0 ≤ r) (hmax : r ≤ 2147483647) :
    ∀ s ∈ bresLoop (bresInit r), s.x + 1 ≤ 2147483647 ∧ -1 ≤ s.y - 1 := by
  intro s hs
  obtain ⟨⟨hx, hy⟩, hle⟩ := bresLoop_xy r s hs
  refine ⟨?_, by omega⟩
  by_cases hlt : r < 2147483647
  · omega
  · have hr2 : r = 2147483647 := by omega
    subst hr2
    rw [bresLoop_init_cons 2147483647 (by decide)] at hs
    rcases List.mem_cons.mp hs with rfl | hs
    · decide
    · have hinv := bresLoop_invariant (fun s => s.y ≤ 2147483646)
        (fun s h _ => by
          show (bresStep s).y ≤ 2147483646
          unfold bresStep
          split <;> simp only <;> omega)
        _ (bresStep (bresInit 2147483647)) (le_refl _) (by decide) s hs
      omega

/-- Claim C2.  For every radius `r` the points emitted for quadrant II are exactly
the images under `(x, y) ↦ (-x, y)` of the points emitted for quadrant I,
those for quadrant IV the images under `(x, y) ↦ (x, -y)`, those for quadrant
III the images under `(x, y) ↦ (-x, -y)`; and the points emitted with the full
mask are closed under negating `x`, negating `y` and swapping `x` and `y`. -/
theorem bglBresCircle_quadrant_symmetry (r : Int) :
    (∀ p, p ∈ bglBresCircle r Q_II ↔ ∃ p0 ∈ bglBresCircle r Q_I, p = (-p0.1, p0.2)) ∧
    (∀ p, p ∈ bglBresCircle r Q_IV ↔ ∃ p0 ∈ bglBresCircle r Q_I, p = (p0.1, -p0.2)) ∧
    (∀ p, p ∈ bglBresCircle r Q_III ↔ ∃ p0 ∈ bglBresCircle r Q_I, p = (-p0.1, -p0.2)) ∧
    (∀ p, p ∈ bglBresCircle r Q_ALL →
      (-p.1, p.2) ∈ bglBresCircle r Q_ALL ∧
      (p.1, -p.2) ∈ bglBresCircle r Q_ALL ∧
      (p.2, p.1) ∈ bglBresCircle r Q_ALL) := by
  refine ⟨?_, ?_, ?_, ?_⟩
  · intro p
    rw [bglBresCircle_map _ Q_II Q_I symmPlotPoints_Q_II r, List.mem_map]
    constructor
    · rintro ⟨p0, h0, rfl⟩; exact ⟨p0, h0, rfl⟩
    · rintro ⟨p0, h0, rfl⟩; exact ⟨p0, h0, rfl⟩
  · intro p
    rw [bglBresCircle_map _ Q_IV Q_I symmPlotPoints_Q_IV r, List.mem_map]
    constructor
    · rintro ⟨p0, h0, rfl⟩; exact ⟨p0, h0, rfl⟩
    · rintro ⟨p0, h0, rfl⟩; exact ⟨p0, h0, rfl⟩
  · intro p
    rw [bglBresCircle_map _ Q_III Q_I symmPlotPoints_Q_III r, List.mem_map]
    constructor
    · rintro ⟨p0, h0, rfl⟩; exact ⟨p0, h0, rfl⟩
    · rintro ⟨p0, h0, rfl⟩; exact ⟨p0, h0, rfl⟩
  · intro p hp
    obtain ⟨s, hs, hps⟩ := mem_bglBresCircle.mp hp
    rw [mem_symmPlotPoints_Q_ALL] at hps
    refine ⟨mem_bglBresCircle.mpr ⟨s, hs, ?_⟩, mem_bglBresCircle.mpr ⟨s, hs, ?_⟩,
      mem_bglBresCircle.mpr ⟨s, hs, ?_⟩⟩ <;>
    · rw [mem_symmPlotPoints_Q_ALL]
      rcases hps with h | h | h | h | h | h | h | h <;> subst h <;> simp

/-- Claim C10.  For every radius `r >= 0` and every mask `q`, every point emitted by
`bglBresCircle(r, q)` lies in the closed quadrant of a quadrant bit that `q`
has set; with one quadrant alone the signs are: I `x >= 0, y >= 0`, II
`x <= 0, y >= 0`, III `x <= 0, y <= 0`, IV `x >= 0, y <= 0`; and for each
enabled quadrant both of its axis end points are emitted. -/
theorem bglBresCircle_quadrants (r : Int) (hr : 0 ≤ r) (q : Quadrant) :
    (∀ p ∈ bglBresCircle r q,
      (q.qI = true ∧ 0 ≤ p.1 ∧ 0 ≤ p.2) ∨ (q.qII = true ∧ p.1 ≤ 0 ∧ 0 ≤ p.2) ∨
      (q.qIII = true ∧ p.1 ≤ 0 ∧ p.2 ≤ 0) ∨ (q.qIV = true ∧ 0 ≤ p.1 ∧ p.2 ≤ 0)) ∧
    (∀ p ∈ bglBresCircle r Q_I, 0 ≤ p.1 ∧ 0 ≤ p.2) ∧
    (∀ p ∈ bglBresCircle r Q_II, p.1 ≤ 0 ∧ 0 ≤ p.2) ∧
    (∀ p ∈ bglBresCircle r Q_III, p.1 ≤ 0 ∧ p.2 ≤ 0) ∧
    (∀ p ∈ bglBresCircle r Q_IV, 0 ≤ p.1 ∧ p.2 ≤ 0) ∧
    (q.qI = true → (0, r) ∈ bglBresCircle r q ∧ (r, 0) ∈ bglBresCircle r q) ∧
    (q.qII = true → (0, r) ∈ bglBresCircle r q ∧ (-r, 0) ∈ bglBresCircle r q) ∧
    (q.qIII = true → (0, -r) ∈ bglBresCircle r q ∧ (-r, 0) ∈ bglBresCircle r q) ∧
    (q.qIV = true → (0, -r) ∈ bglBresCircle r q ∧ (r, 0) ∈ bglBresCircle r q) := by
  have hall : ∀ q0 : Quadrant, ∀ p ∈ bglBresCircle r q0,
      (q0.qI = true ∧ 0 ≤ p.1 ∧ 0 ≤ p.2) ∨ (q0.qII = true ∧ p.1 ≤ 0 ∧ 0 ≤ p.2) ∨
      (q0.qIII = true ∧ p.1 ≤ 0 ∧ p.2 ≤ 0) ∨ (q0.qIV = true ∧ 0 ≤ p.1 ∧ p.2 ≤ 0) := by
    intro q0 p hp
    obtain ⟨s, hs, hps⟩ := mem_bglBresCircle.mp hp
    obtain ⟨⟨hx, _⟩, hle⟩ := bresLoop_xy r s hs
    have hy : 0 ≤ s.y := le_trans hx hle
    simp only [symmPlotPoints, List.mem_append] at hps
    rcases hps with ((h | h) | h) | h
    · split at h
      · rename_i hq
        simp only [List.mem_cons, List.mem_singleton, List.not_mem_nil, or_false] at h
        left
        rcases h with rfl | rfl
        · exact ⟨hq, by simpa using hx, by simpa using hy⟩
        · exact ⟨hq, by simpa using hy, by simpa using hx⟩
      · simp at h
    · split at h
      · rename_i hq
        simp only [List.mem_cons, List.mem_singleton, List.not_mem_nil, or_false] at h
        right; left
        rcases h with rfl | rfl
        · exact ⟨hq, by simpa using hx, by simpa using hy⟩
        · exact ⟨hq, by simpa using hy, by simpa using hx⟩
      · simp at h
    · split at h
      · rename_i hq
        simp only [List.mem_cons, List.mem_singleton, List.not_mem_nil, or_false] at h
        right; right; left
        rcases h with rfl | rfl
        · exact ⟨hq, by simpa using hx, by simpa using hy⟩
        · exact ⟨hq, by simpa using hy, by simpa using hx⟩
      · simp at h
    · split at h
      · rename_i hq
        simp only [List.mem_cons, List.mem_singleton, List.not_mem_nil, or_false] at h
        right; right; right
        rcases h with rfl | rfl
        · exact ⟨hq, by simpa using hx, by simpa using hy⟩
        · exact ⟨hq, by simpa using hy, by simpa using hx⟩
      · simp at h
  have hfirst : ∀ p, p ∈ symmPlotPoints 0 r q → p ∈ bglBresCircle r q := by
    intro p hp
    refine mem_bglBresCircle.mpr ⟨bresInit r, ?_, by simpa [bresInit] using hp⟩
    rw [bresLoop_init_cons r hr]
    exact List.mem_cons_self _ _
  refine ⟨hall q, ?_, ?_, ?_, ?_, ?_, ?_, ?_, ?_⟩
  · intro p hp
    have := hall Q_I p hp
    simpa [Q_I] using this
  · intro p hp
    have := hall Q_II p hp
    simpa [Q_II] using this
  · intro p hp
    have := hall Q_III p hp
    simpa [Q_III] using this
  · intro p hp
    have := hall Q_IV p hp
    simpa [Q_IV] using this
  · intro hq
    constructor <;> apply hfirst <;> simp [symmPlotPoints, hq]
  · intro hq
    constructor <;> apply hfirst <;> simp [symmPlotPoints, hq]
  · intro hq
    constructor <;> apply hfirst <;> simp [symmPlotPoints, hq]
  · intro hq
    constructor <;> apply hfirst <;> simp [symmPlotPoints, hq]

/-- For radius 3 and quadrant I alone: all emitted points are in the closed
first quadrant and the end points `(0, 3)` and `(3, 0)` are emitted. -/
theorem bglBresCircle_quadrants_witness :
    (∀ p ∈ bglBresCircle 3 Q_I, 0 ≤ p.1 ∧ 0 ≤ p.2) ∧
    ((0, 3) ∈ bglBresCircle 3 Q_I ∧ (3, 0) ∈ bglBresCircle 3 Q_I) :=
  ⟨(bglBresCircle_quadrants 3 (by decide) Q_I).2.1,
   (bglBresCircle_quadrants 3 (by decide) Q_I).2.2.2.2.2.1 rfl⟩

/-! ### The rule violation overlay -/

/-- Every pass of the event loop draws an event of the scanned list, inside the
window, with `drawEvent`. -/
theorem mem_ruleLoop (rulenames : List String) (robot_models : List Robot_Sample)
    (ball_model : Ball_Sample) (cur_timestamp : Int) :
    ∀ (l : List Broken_Rule) (k : Nat) (r : RenderedEvent),
      r ∈ ruleLoop rulenames robot_models ball_model cur_timestamp k l →
      r = drawEvent rulenames robot_models ball_model r.rule_counter r.event ∧
      r.event ∈ l ∧ age cur_timestamp r.event ≤ 5000 := by
  intro l
  induction l with
  | nil => intro k r hr; simp [ruleLoop] at hr
  | cons e rest ih =>
    intro k r hr
    by_cases hbreak : cur_timestamp - e.when_broken > 5000
    · simp [ruleLoop, hbreak] at hr
    · simp only [ruleLoop, if_neg hbreak, List.mem_cons] at hr
      rcases hr with rfl | hr
      · refine ⟨rfl, ?_, ?_⟩
        · simp [drawEvent]
        · simp only [drawEvent, age]; omega
      · obtain ⟨h1, h2, h3⟩ := ih (k + 1) r hr
        exact ⟨h1, List.mem_cons_of_mem _ h2, h3⟩

/-- The events the loop visits are the longest run at the head of the scanned
list whose ages do not exceed the window. -/
theorem ruleLoop_events (rulenames : List String) (robot_models : List Robot_Sample)
    (ball_model : Ball_Sample) (cur_timestamp : Int) :
    ∀ (l : List Broken_Rule) (k : Nat),
      (ruleLoop rulenames robot_models ball_model cur_timestamp k l).map (fun r => r.event)
        = l.takeWhile (fun e => decide (age cur_timestamp e ≤ 5000)) := by
  intro l
  induction l with
  | nil => intro k; simp [ruleLoop]
  | cons e rest ih =>
    intro k
    by_cases hbreak : cur_timestamp - e.when_broken > 5000
    · have hage : ¬ age cur_timestamp e ≤ 5000 := by simp only [age]; omega
      simp [ruleLoop, hbreak, List.takeWhile_cons, hage]
    · have hage : age cur_timestamp e ≤ 5000 := by simp only [age]; omega
      simp only [ruleLoop, if_neg hbreak, List.map_cons, List.takeWhile_cons, hage,
        decide_True, if_true, ih (k + 1)]
      simp [drawEvent]

/-- The text rows are numbered 0, 1, 2, ... from the start value of the counter. -/
theorem ruleLoop_rows (rulenames : List String) (robot_models : List Robot_Sample)
    (ball_model : Ball_Sample) (cur_timestamp : Int) :
    ∀ (l : List Broken_Rule) (k : Nat),
      (ruleLoop rulenames robot_models ball_model cur_timestamp k l).map (fun r => r.rule_counter)
        = (List.range (ruleLoop rulenames robot_models ball_model cur_timestamp k l).length).map
            (fun i => k + i) := by
  intro l
  induction l with
  | nil => intro k; simp [ruleLoop]
  | cons e rest ih =>
    intro k
    by_cases hbreak : cur_timestamp - e.when_broken > 5000
    · simp [ruleLoop, hbreak]
    · simp only [ruleLoop, if_neg hbreak, List.map_cons, List.length_cons, ih (k + 1)]
      rw [List.range_succ_eq_map, List.map_cons, List.map_map]
      simp only [drawEvent, Nat.add_zero, List.cons.injEq, true_and]
      apply List.map_congr_left
      intro i _
      simp only [Function.comp, Nat.succ_eq_add_one]
      omega

/-- On a list in which no element passes the test once an earlier element has
failed it, stopping at the first failure loses nothing. -/
theorem takeWhile_eq_filter_of_pairwise {α : Type} (p : α → Bool) (R : α → α → Prop)
    (hR : ∀ a b, R a b → p b = true → p a = true) :
    ∀ l : List α, l.Pairwise R → l.takeWhile p = l.filter p := by
  intro l
  induction l with
  | nil => intro _; rfl
  | cons a rest ih =>
    intro hl
    rw [List.pairwise_cons] at hl
    rw [List.takeWhile_cons, List.filter_cons]
    by_cases hp : p a = true
    · rw [if_pos hp, if_pos hp, ih hl.2]
    · rw [if_neg hp, if_neg hp]
      symm
      rw [List.filter_eq_nil_iff]
      intro b hb hpb
      exact hp (hR a b (hl.1 b hb) hpb)

/-- Claim C3.  For every current timestamp and every violation log ordered oldest to
newest, the events `bglDrawRulesystemData` renders are exactly the events of
age at most 5000, newest first; the scan is the longest run of such events at
the newest end of the log, so it stops at the first event older than 5000
and visits nothing beyond it; an event of age exactly 5000 is rendered; the
text rows are numbered 0, 1, 2, ... in that order. -/
theorem violation_window (rulenames : List String) (fd : Filter_Data) (b : Buffers)
    (hord : LogOrdered fd.get_broken_rules) :
    (bglDrawRulesystemData rulenames fd b).map (fun r => r.event)
      = fd.get_broken_rules.reverse.filter (fun e => decide (age fd.get_timestamp e ≤ 5000)) ∧
    (bglDrawRulesystemData rulenames fd b).map (fun r => r.event)
      = fd.get_broken_rules.reverse.takeWhile
          (fun e => decide (age fd.get_timestamp e ≤ 5000)) ∧
    (∀ e ∈ fd.get_broken_rules, age fd.get_timestamp e = 5000 →
      e ∈ (bglDrawRulesystemData rulenames fd b).map (fun r => r.event)) ∧
    (bglDrawRulesystemData rulenames fd b).map (fun r => r.rule_counter)
      = List.range (bglDrawRulesystemData rulenames fd b).length := by
  have htake : (bglDrawRulesystemData rulenames fd b).map (fun r => r.event)
      = fd.get_broken_rules.reverse.takeWhile
          (fun e => decide (age fd.get_timestamp e ≤ 5000)) := by
    simp only [bglDrawRulesystemData, bglDrawRulesystemData_fetch]
    exact ruleLoop_events _ _ _ _ _ _
  have hfilter : fd.get_broken_rules.reverse.takeWhile
        (fun e => decide (age fd.get_timestamp e ≤ 5000))
      = fd.get_broken_rules.reverse.filter
        (fun e => decide (age fd.get_timestamp e ≤ 5000)) := by
    apply takeWhile_eq_filter_of_pairwise _
      (fun a b : Broken_Rule => b.when_broken ≤ a.when_broken)
    · intro a c hac hc
      simp only [decide_eq_true_eq, age] at hc ⊢
      omega
    · rw [List.pairwise_reverse]
      exact hord
  refine ⟨htake.trans hfilter, htake, ?_, ?_⟩
  · intro e he h5000
    rw [htake, hfilter, List.mem_filter]
    refine ⟨List.mem_reverse.mpr he, ?_⟩
    simp only [decide_eq_true_eq]
    omega
  · have := ruleLoop_rows rulenames (bglDrawRulesystemData_fetch fd b).robot_models
      (bglDrawRulesystemData_fetch fd b).ball_model
      (bglDrawRulesystemData_fetch fd b).cur_timestamp
      (bglDrawRulesystemData_fetch fd b).broken_rule_vector.reverse 0
    simp only [Nat.zero_add, List.map_id_fun, id] at this
    simpa [bglDrawRulesystemData] using this

/-- The example of the claim: at time 10000 the log holds events of ages 9000,
5001, 4999 and 100 (oldest first); exactly the two of ages 100 and 4999 are
rendered, newest first, in rows 0 and 1. -/
theorem violation_window_witness :
    (bglDrawRulesystemData sampleRulenames
        (sampleData (fun _ _ => false) (fun _ _ => []) windowLog 10000)
        (sampleBuffers [])).map (fun r => r.event)
      = [sampleEvent 4 9900 1 4, sampleEvent 3 5001 1 3] ∧
    (bglDrawRulesystemData sampleRulenames
        (sampleData (fun _ _ => false) (fun _ _ => []) windowLog 10000)
        (sampleBuffers [])).map (fun r => r.rule_counter) = [0, 1] :=
  have h := violation_window sampleRulenames
    (sampleData (fun _ _ => false) (fun _ _ => []) windowLog 10000) (sampleBuffers [])
    (by unfold LogOrdered; decide)
  ⟨h.1.trans (by decide), by rw [h.2.2.2, ← List.length_map _ (fun r => r.event), h.1]; decide⟩

/-- Every rendered event is an event of the fetched log, inside the window,
drawn with the robot models and the ball model the buffers hold. -/
theorem mem_bglDrawRulesystemData {rulenames : List String} {fd : Filter_Data} {b : Buffers}
    {r : RenderedEvent} (hr : r ∈ bglDrawRulesystemData rulenames fd b) :
    r = drawEvent rulenames b.robot_models b.ball_model r.rule_counter r.event ∧
    r.event ∈ fd.get_broken_rules ∧ age fd.get_timestamp r.event ≤ 5000 := by
  simp only [bglDrawRulesystemData, bglDrawRulesystemData_fetch] at hr
  obtain ⟨h1, h2, h3⟩ := mem_ruleLoop _ _ _ _ _ _ _ hr
  exact ⟨h1, List.mem_reverse.mp h2, h3⟩

/-- The newest event of the log is rendered in row 0 if it is inside the window. -/
theorem drawEvent_mem_of_newest (rulenames : List String) (fd : Filter_Data) (b : Buffers)
    (older : List Broken_Rule) (e : Broken_Rule)
    (hlog : fd.get_broken_rules = older ++ [e])
    (hage : age fd.get_timestamp e ≤ 5000) :
    drawEvent rulenames b.robot_models b.ball_model 0 e ∈ bglDrawRulesystemData rulenames fd b := by
  have hnot : ¬ fd.get_timestamp - e.when_broken > 5000 := by
    simp only [age] at hage; omega
  simp only [bglDrawRulesystemData, bglDrawRulesystemData_fetch, hlog, List.reverse_append,
    List.reverse_cons, List.reverse_nil, List.nil_append, List.singleton_append, ruleLoop,
    if_neg hnot]
  exact List.mem_cons_self _ _

theorem int_to_string_count_pos {len tmp : Int} {s : List Char} (h : 0 < tmp) :
    int_to_string_count len tmp s
      = int_to_string_count (len + 1) (Int.tdiv tmp 10) (s ++ [' ']) := by
  rw [int_to_string_count, if_pos h]

theorem int_to_string_count_nonpos {len tmp : Int} {s : List Char} (h : ¬ 0 < tmp) :
    int_to_string_count len tmp s = (len, s) := by
  rw [int_to_string_count, if_neg h]

/-- The result of `int_to_string` does not depend on what `string` held. -/
theorem int_to_string_discards (s : String) (i : Int) :
    int_to_string s i = int_to_string "" i := rfl

theorem int_to_string_neg_one : int_to_string "" (-1) = ("", 0) := by
  simp (disch := decide) [int_to_string, int_to_string_count_nonpos]

theorem int_to_string_zero : int_to_string "" 0 = ("0", 1) := by
  simp (disch := decide) [int_to_string, int_to_string_count_nonpos]
  decide

theorem int_to_string_one : int_to_string "" 1 = ("1", 1) := by
  simp (disch := decide) [int_to_string, int_to_string_count_pos, int_to_string_count_nonpos]
  decide

theorem int_to_string_seven : int_to_string "" 7 = ("7", 1) := by
  simp (disch := decide) [int_to_string, int_to_string_count_pos, int_to_string_count_nonpos]
  decide

/-- The rings of an event: none exactly when no robot model carries the
breaker reference. -/
theorem breakerRings_eq_nil (robot_models : List Robot_Sample) (brit : Broken_Rule) :
    breakerRings robot_models brit = [] ↔
      ∀ m ∈ robot_models, ¬ (m.team = brit.rule_breaker.x ∧ m.id = brit.rule_breaker.y) := by
  unfold breakerRings
  rw [List.flatMap_eq_nil_iff]
  constructor
  · intro h m hm hmatch
    have := h m hm
    rw [if_pos hmatch] at this
    simp at this
  · intro h m hm
    rw [if_neg (h m hm)]

/-- Claim C4, amended.  For every event inside the recency window whose breaker
reference has team = -1: no breaker highlight ring is drawn for it unless the
robot-model list holds an entry whose team is -1 and whose id is the breaker
id of the event; and if its rule number is not 29, its text line is the rule
name alone (or "unknown"), with no " by <team-color> <id>" suffix. -/
theorem breaker_absent (rulenames : List String) (fd : Filter_Data) (b : Buffers)
    (r : RenderedEvent) (hr : r ∈ bglDrawRulesystemData rulenames fd b)
    (hteam : r.event.rule_breaker.x = -1) :
    (r.rings = [] ↔
      ∀ m ∈ b.robot_models, ¬ (m.team = -1 ∧ m.id = r.event.rule_breaker.y)) ∧
    (r.event.rule_number ≠ 29 → r.text = (ruleName rulenames r.event).1) := by
  obtain ⟨hdraw, _, _⟩ := mem_bglDrawRulesystemData hr
  constructor
  · rw [hdraw]
    simp only [drawEvent]
    rw [breakerRings_eq_nil, hteam]
  · intro h29
    rw [hdraw]
    have hid : ruleSuffix r.event = id := by
      funext s
      simp [ruleSuffix, h29, hteam]
    simp only [drawEvent, ruleText, hid, Option.map_id, id]

/-- An event of rule 3 with the absent breaker `(-1, -1)`, with robot models of
both teams in the buffers: no ring, and the text is the bare rule name. -/
theorem breaker_absent_witness :
    (drawEvent sampleRulenames [⟨0, 1, ⟨5, 6, 0, 0⟩⟩, ⟨1, 1, ⟨7, 8, 0, 0⟩⟩] sampleBall 0
        (sampleEvent 3 9900 (-1) (-1))).rings = [] ∧
    (drawEvent sampleRulenames [⟨0, 1, ⟨5, 6, 0, 0⟩⟩, ⟨1, 1, ⟨7, 8, 0, 0⟩⟩] sampleBall 0
        (sampleEvent 3 9900 (-1) (-1))).text = some "rule 3" :=
  have h := breaker_absent sampleRulenames
    (sampleData (fun _ _ => false) (fun _ _ => []) [sampleEvent 3 9900 (-1) (-1)] 10000)
    (sampleBuffers [⟨0, 1, ⟨5, 6, 0, 0⟩⟩, ⟨1, 1, ⟨7, 8, 0, 0⟩⟩])
    (drawEvent sampleRulenames [⟨0, 1, ⟨5, 6, 0, 0⟩⟩, ⟨1, 1, ⟨7, 8, 0, 0⟩⟩] sampleBall 0
        (sampleEvent 3 9900 (-1) (-1)))
    (drawEvent_mem_of_newest _ _ _ [] _ rfl (by decide)) rfl
  ⟨h.1.mpr (by decide), (h.2 (by decide)).trans (by decide)⟩

/-- Claim C4 as stated fails.  An event of rule 29 inside the window with the
absent breaker `(-1, -1)` gets the text "rule 29 by Blue  New Standing: 1:0",
which carries a " by <team-color> <id>" suffix; and with a robot model whose
team and id are both -1 in the buffers, a ring is drawn at that model. -/
theorem breaker_absent_fails :
    (bglDrawRulesystemData sampleRulenames
        (sampleData (fun _ _ => false) (fun _ _ => []) [sampleEvent 29 9900 (-1) (-1)] 10000)
        (sampleBuffers [⟨-1, -1, ⟨5, 6, 0, 0⟩⟩])).map
      (fun r => (r.event.rule_breaker.x, age 10000 r.event, r.rings, r.text))
      = [(-1, 100, [(5, 6)], some "rule 29 by Blue  New Standing: 1:0")] := by
  simp [bglDrawRulesystemData, bglDrawRulesystemData_fetch, sampleData, sampleBuffers,
    sampleEvent, ruleLoop, drawEvent, breakerRings, ruleText, ruleSuffix, teamColour, age,
    int_to_string_neg_one, int_to_string_zero, int_to_string_one]
  decide

/-- Claim C5.  For every event inside the recency window, the freekick crosshair
(the two diagonals `(-90,-90)-(90,90)` and `(-90,90)-(90,-90)` around
`freekick_pos`) is drawn if and only if `freekick_pos.x != -1`, and the segment
from `line_for_smth.p1` to `line_for_smth.p2` is drawn if and only if
`line_for_smth.p1.x != -1`; the crosshair is the same for any two rendered
events with the same `freekick_pos` and the segment is the same for any two
with the same `line_for_smth`, whatever their other parts, the rule-name
table and the buffers. -/
theorem sentinel_freekick_line (rulenames : List String) (fd : Filter_Data) (b : Buffers)
    (r : RenderedEvent) (hr : r ∈ bglDrawRulesystemData rulenames fd b) :
    (r.crosshair.isSome = true ↔ r.event.freekick_pos.x ≠ -1) ∧
    (r.event.freekick_pos.x ≠ -1 →
      r.crosshair = some
        { centre := (r.event.freekick_pos.x, r.event.freekick_pos.y)
          vertices := [(-90, -90), (90, 90), (-90, 90), (90, -90)] }) ∧
    (r.line.isSome = true ↔ r.event.line_for_smth.p1.x ≠ -1) ∧
    (r.event.line_for_smth.p1.x ≠ -1 →
      r.line = some (r.event.line_for_smth.p1, r.event.line_for_smth.p2)) ∧
    (∀ (rulenames2 : List String) (fd2 : Filter_Data) (b2 : Buffers) (r2 : RenderedEvent),
      r2 ∈ bglDrawRulesystemData rulenames2 fd2 b2 →
      (r2.event.freekick_pos = r.event.freekick_pos → r2.crosshair = r.crosshair) ∧
      (r2.event.line_for_smth = r.event.line_for_smth → r2.line = r.line)) := by
  obtain ⟨hdraw, _, _⟩ := mem_bglDrawRulesystemData hr
  have hc : r.crosshair = freekickCrosshair r.event := by rw [hdraw]; rfl
  have hl : r.line = lineSegment r.event := by rw [hdraw]; rfl
  refine ⟨?_, ?_, ?_, ?_, ?_⟩
  · rw [hc]
    unfold freekickCrosshair
    by_cases hx : r.event.freekick_pos.x ≠ -1
    · rw [if_pos hx]; exact ⟨fun _ => hx, fun _ => rfl⟩
    · rw [if_neg hx]; exact ⟨fun h => by simp at h, fun h => absurd h hx⟩
  · intro hx
    rw [hc]
    unfold freekickCrosshair
    rw [if_pos hx]
  · rw [hl]
    unfold lineSegment
    by_cases hx : r.event.line_for_smth.p1.x ≠ -1
    · rw [if_pos hx]; exact ⟨fun _ => hx, fun _ => rfl⟩
    · rw [if_neg hx]; exact ⟨fun h => by simp at h, fun h => absurd h hx⟩
  · intro hx
    rw [hl]
    unfold lineSegment
    rw [if_pos hx]
  · intro rulenames2 fd2 b2 r2 hr2
    obtain ⟨hdraw2, _, _⟩ := mem_bglDrawRulesystemData hr2
    have hc2 : r2.crosshair = freekickCrosshair r2.event := by rw [hdraw2]; rfl
    have hl2 : r2.line = lineSegment r2.event := by rw [hdraw2]; rfl
    constructor
    · intro h
      rw [hc, hc2]
      unfold freekickCrosshair
      rw [h]
    · intro h
      rw [hl, hl2]
      unfold lineSegment
      rw [h]

/-- An event with a freekick point at `(100, -200)` and no line segment: the
crosshair is drawn there and no segment is drawn. -/
theorem sentinel_freekick_line_witness :
    (drawEvent sampleRulenames [] sampleBall 0
      { sampleEvent 3 9900 0 1 with freekick_pos := ⟨100, -200⟩ }).crosshair
      = some { centre := (100, -200), vertices := [(-90, -90), (90, 90), (-90, 90), (90, -90)] } ∧
    ¬ ((drawEvent sampleRulenames [] sampleBall 0
      { sampleEvent 3 9900 0 1 with freekick_pos := ⟨100, -200⟩ }).line.isSome = true) :=
  have h := sentinel_freekick_line sampleRulenames
    (sampleData (fun _ _ => false) (fun _ _ => [])
      [{ sampleEvent 3 9900 0 1 with freekick_pos := ⟨100, -200⟩ }] 10000)
    (sampleBuffers [])
    (drawEvent sampleRulenames [] sampleBall 0
      { sampleEvent 3 9900 0 1 with freekick_pos := ⟨100, -200⟩ })
    (drawEvent_mem_of_newest _ _ _ [] _ rfl (by decide))
  ⟨h.2.1 (by decide), fun hsome => (h.2.2.1.mp hsome) (by decide)⟩

/-- Appending to the rule name: the result is the name followed by what is
appended to the empty string. -/
theorem ruleSuffix_eq_append (brit : Broken_Rule) (string : String) :
    ruleSuffix brit string = string ++ ruleSuffix brit "" := by
  unfold ruleSuffix
  split
  · simp only [String.append_assoc, String.empty_append]
  · split
    · simp only [String.append_assoc, String.empty_append]
    · simp

/-- Inside the range 1..42 the lookup reads an entry of a 42-entry table. -/
theorem ruleName_in_range (rulenames : List String) (h42 : rulenames.length = 42)
    (brit : Broken_Rule) (hin : ¬ (brit.rule_number < 1 ∨ brit.rule_number > 42)) :
    ∃ name, rulenames[(brit.rule_number - 1).toNat]? = some name ∧
      rulenamesAt rulenames (brit.rule_number - 1) = some name ∧
      ruleName rulenames brit = (some name, false) := by
  have hlt : (brit.rule_number - 1).toNat < rulenames.length := by omega
  refine ⟨rulenames[(brit.rule_number - 1).toNat], List.getElem?_eq_getElem hlt, ?_, ?_⟩
  · unfold rulenamesAt
    rw [if_neg (by omega), List.getElem?_eq_getElem hlt]
  · unfold ruleName rulenamesAt
    rw [if_neg hin, if_neg (by omega), List.getElem?_eq_getElem hlt]

/-- What is appended to the rule name is nothing or starts with " by ". -/
theorem ruleSuffix_empty_or_by (brit : Broken_Rule) :
    ruleSuffix brit "" = "" ∨ ∃ t, ruleSuffix brit "" = " by " ++ t := by
  unfold ruleSuffix
  split
  · simp only [String.empty_append, String.append_assoc]
    exact Or.inr ⟨_, rfl⟩
  · split
    · simp only [String.empty_append, String.append_assoc]
      exact Or.inr ⟨_, rfl⟩
    · exact Or.inl rfl

/-- If a name followed by nothing or by " by ..." begins with "unknown", the
name itself begins with "unknown". -/
theorem unknown_prefix_of_name (name suffix rest : String)
    (hsuf : suffix = "" ∨ ∃ t, suffix = " by " ++ t)
    (h : name ++ suffix = "unknown" ++ rest) : "unknown".data <+: name.data := by
  have hd : name.data ++ suffix.data = "unknown".data ++ rest.data := by
    simpa [String.data_append] using congrArg String.data h
  have hp1 : "unknown".data <+: name.data ++ suffix.data := ⟨rest.data, hd.symm⟩
  have hp2 : name.data <+: name.data ++ suffix.data := List.prefix_append _ _
  rcases List.prefix_or_prefix_of_prefix hp1 hp2 with h1 | h2
  · exact h1
  · obtain ⟨t, ht⟩ := h2
    rw [← ht, List.append_assoc] at hd
    have hs : suffix.data = t ++ rest.data := List.append_cancel_left hd
    cases t with
    | nil =>
      rw [List.append_nil] at ht
      rw [ht]
    | cons c t2 =>
      exfalso
      rcases hsuf with rfl | ⟨u, rfl⟩
      · simp at hs
      · have hc : c = ' ' := by
          simp only [String.data_append, List.cons_append] at hs
          have h0 := (List.cons.inj hs).1
          exact h0.symm
        have hmem : c ∈ "unknown".data := by
          rw [← ht]; simp
        rw [hc] at hmem
        exact absurd hmem (by decide)

/-- Claim C6.  With a rule-name table of 42 entries, for every rendered event: the
warning is logged if and only if `rule_number < 1` or `rule_number > 42`; the
text line begins with "unknown" and the warning is logged if and only if the
rule number is out of that range; otherwise the text line begins with entry
`rule_number - 1` of the table, and that read is inside the table.  The text
line always exists (no read outside the table happens).  If no entry of the
table itself begins with "unknown", the text line begins with "unknown" if and
only if the rule number is out of range. -/
theorem rule_name_lookup (rulenames : List String) (h42 : rulenames.length = 42)
    (fd : Filter_Data) (b : Buffers) (r : RenderedEvent)
    (hr : r ∈ bglDrawRulesystemData rulenames fd b) :
    (r.warned = true ↔ (r.event.rule_number < 1 ∨ r.event.rule_number > 42)) ∧
    ((r.warned = true ∧ ∃ rest, r.text = some ("unknown" ++ rest)) ↔
      (r.event.rule_number < 1 ∨ r.event.rule_number > 42)) ∧
    (¬ (r.event.rule_number < 1 ∨ r.event.rule_number > 42) →
      ∃ name rest, rulenames[(r.event.rule_number - 1).toNat]? = some name ∧
        rulenamesAt rulenames (r.event.rule_number - 1) = some name ∧
        r.text = some (name ++ rest)) ∧
    r.text.isSome = true ∧
    ((∀ name ∈ rulenames, ¬ ("unknown".data <+: name.data)) →
      ((∃ rest, r.text = some ("unknown" ++ rest)) ↔
        (r.event.rule_number < 1 ∨ r.event.rule_number > 42))) := by
  obtain ⟨hdraw, _, _⟩ := mem_bglDrawRulesystemData hr
  have hw : r.warned = (ruleName rulenames r.event).2 := by rw [hdraw]; rfl
  have ht : r.text = (ruleName rulenames r.event).1.map (ruleSuffix r.event) := by
    rw [hdraw]; rfl
  by_cases hout : r.event.rule_number < 1 ∨ r.event.rule_number > 42
  · have hname : ruleName rulenames r.event = (some "unknown", true) := by
      unfold ruleName; rw [if_pos hout]
    have htext : r.text = some ("unknown" ++ ruleSuffix r.event "") := by
      rw [ht, hname, Option.map_some', ruleSuffix_eq_append]
    refine ⟨?_, ?_, ?_, ?_, ?_⟩
    · rw [hw, hname]; simp [hout]
    · rw [hw, hname]
      exact ⟨fun _ => hout, fun _ => ⟨rfl, _, htext⟩⟩
    · intro hin; exact absurd hout hin
    · rw [htext]; rfl
    · intro _
      exact ⟨fun _ => hout, fun _ => ⟨_, htext⟩⟩
  · obtain ⟨name, hget, hat, hname⟩ := ruleName_in_range rulenames h42 r.event hout
    have htext : r.text = some (name ++ ruleSuffix r.event "") := by
      rw [ht, hname, Option.map_some', ruleSuffix_eq_append]
    refine ⟨?_, ?_, ?_, ?_, ?_⟩
    · rw [hw, hname]; simp [hout]
    · rw [hw, hname]
      constructor
      · rintro ⟨hfalse, _⟩; simp at hfalse
      · intro h; exact absurd h hout
    · intro _; exact ⟨name, _, hget, hat, htext⟩
    · rw [htext]; rfl
    · intro htable
      constructor
      · rintro ⟨rest, hrest⟩
        exfalso
        rw [htext] at hrest
        have hmem : name ∈ rulenames := by
          obtain ⟨hlt, hval⟩ := List.getElem?_eq_some_iff.mp hget
          rw [← hval]
          exact List.getElem_mem _
        exact htable name hmem
          (unknown_prefix_of_name name _ rest (ruleSuffix_empty_or_by r.event)
            (Option.some.inj hrest))
      · intro h; exact absurd h hout

/-- The examples of the claim: events with rule numbers 0 and 43 are both
rendered with the warning and a text line that begins with "unknown"; an
event with rule number 42 reads the last entry of the table. -/
theorem rule_name_lookup_witness :
    ((drawEvent sampleRulenames [] sampleBall 0 (sampleEvent 0 9900 0 1)).warned = true ∧
      ∃ rest, (drawEvent sampleRulenames [] sampleBall 0 (sampleEvent 0 9900 0 1)).text
        = some ("unknown" ++ rest)) ∧
    ((drawEvent sampleRulenames [] sampleBall 0 (sampleEvent 43 9900 0 1)).warned = true ∧
      ∃ rest, (drawEvent sampleRulenames [] sampleBall 0 (sampleEvent 43 9900 0 1)).text
        = some ("unknown" ++ rest)) ∧
    (∃ name rest, sampleRulenames[((sampleEvent 42 9900 0 1).rule_number - 1).toNat]? = some name ∧
      rulenamesAt sampleRulenames ((sampleEvent 42 9900 0 1).rule_number - 1) = some name ∧
      (drawEvent sampleRulenames [] sampleBall 0 (sampleEvent 42 9900 0 1)).text
        = some (name ++ rest)) :=
  ⟨(rule_name_lookup sampleRulenames (by decide)
      (sampleData (fun _ _ => false) (fun _ _ => []) [sampleEvent 0 9900 0 1] 10000)
      (sampleBuffers []) _
      (drawEvent_mem_of_newest _ _ _ [] _ rfl (by decide))).2.1.mpr (Or.inl (by decide)),
   (rule_name_lookup sampleRulenames (by decide)
      (sampleData (fun _ _ => false) (fun _ _ => []) [sampleEvent 43 9900 0 1] 10000)
      (sampleBuffers []) _
      (drawEvent_mem_of_newest _ _ _ [] _ rfl (by decide))).2.1.mpr (Or.inr (by decide)),
   (rule_name_lookup sampleRulenames (by decide)
      (sampleData (fun _ _ => false) (fun _ _ => []) [sampleEvent 42 9900 0 1] 10000)
      (sampleBuffers []) _
      (drawEvent_mem_of_newest _ _ _ [] _ rfl (by decide))).2.2.1 (by decide)⟩

/-! ### Decimal rendering -/

/-- The first loop counts the decimal digits of `tmp` and appends one blank for
each. -/
theorem int_to_string_count_eq :
    ∀ (n : Nat) (len tmp : Int) (s : List Char), tmp.toNat ≤ n →
      int_to_string_count len tmp s
        = (len + ((Nat.digits 10 tmp.toNat).length : Int),
           s ++ List.replicate (Nat.digits 10 tmp.toNat).length ' ') := by
  intro n
  induction n with
  | zero =>
    intro len tmp s hn
    have h0 : tmp.toNat = 0 := by omega
    rw [int_to_string_count_nonpos (by omega), h0]
    simp
  | succ n ih =>
    intro len tmp s hn
    by_cases hpos : 0 < tmp
    · have h10 : Int.tdiv tmp 10 = tmp / 10 := Int.tdiv_eq_ediv (by omega) (by omega)
      have hnat : (tmp / 10).toNat = tmp.toNat / 10 := by omega
      have hdig : Nat.digits 10 tmp.toNat = tmp.toNat % 10 :: Nat.digits 10 (tmp.toNat / 10) :=
        Nat.digits_def' (by decide) (by omega)
      rw [int_to_string_count_pos hpos, h10, ih _ _ _ (by omega), hnat, hdig]
      simp only [List.length_cons, List.append_assoc, List.singleton_append, Prod.mk.injEq]
      constructor
      · push_cast; ring
      · rw [List.replicate_succ]
    · have h0 : tmp.toNat = 0 := by omega
      rw [int_to_string_count_nonpos hpos, h0]
      simp

/-- The second loop, started on `k` blanks between `front` and `back` with a
`k`-digit number, writes the digits of the number over the blanks, the
lowest digit last. -/
theorem int_to_string_digit_foldl (len : Int) :
    ∀ (k : Nat) (tmp : Int) (front back : List Char) (j0 : Nat),
      0 ≤ tmp → (Nat.digits 10 tmp.toNat).length = k →
      len = (front.length : Int) + k + back.length → j0 = back.length →
      ((List.range' j0 k).foldl (int_to_string_digit len)
          (tmp, front ++ List.replicate k ' ' ++ back)).2
        = front ++ ((Nat.digits 10 tmp.toNat).reverse.map decimalChar) ++ back := by
  intro k
  induction k with
  | zero =>
    intro tmp front back j0 _ hk _ _
    rw [List.length_eq_zero] at hk
    simp [hk]
  | succ k ih =>
    intro tmp front back j0 htmp hk hlen hj0
    have hpos : 0 < tmp.toNat := by
      rcases Nat.eq_zero_or_pos tmp.toNat with h | h
      · rw [h] at hk; simp at hk
      · exact h
    have hdig : Nat.digits 10 tmp.toNat = tmp.toNat % 10 :: Nat.digits 10 (tmp.toNat / 10) :=
      Nat.digits_def' (by decide) hpos
    have h10 : Int.tdiv tmp 10 = tmp / 10 := Int.tdiv_eq_ediv htmp (by omega)
    have hmod : Int.tmod tmp 10 = tmp % 10 := Int.tmod_eq_emod htmp (by omega)
    have hnat : (tmp / 10).toNat = tmp.toNat / 10 := by omega
    have hk2 : (Nat.digits 10 (tmp / 10).toNat).length = k := by
      rw [hnat]; rw [hdig] at hk; simpa using hk
    have hidx : (len - (j0 : Int) - 1).toNat = (front ++ List.replicate k ' ').length := by
      rw [List.length_append, List.length_replicate]; omega
    have hchar : Char.ofNat (Int.tmod tmp 10 + 48).toNat = decimalChar (tmp.toNat % 10) := by
      unfold decimalChar
      congr 1
      omega
    rw [List.range'_succ, List.foldl_cons]
    simp only [int_to_string_digit]
    rw [hidx, hchar, h10, List.replicate_succ']
    have hset : (front ++ (List.replicate k ' ' ++ [' ']) ++ back).set
          (front ++ List.replicate k ' ').length (decimalChar (tmp.toNat % 10))
        = front ++ List.replicate k ' ' ++ (decimalChar (tmp.toNat % 10) :: back) := by
      rw [show front ++ (List.replicate k ' ' ++ [' ']) ++ back
          = (front ++ List.replicate k ' ') ++ (' ' :: back) by simp]
      simp
    rw [hset, ih (tmp / 10) front (decimalChar (tmp.toNat % 10) :: back) (j0 + 1)
      (by omega) hk2 (by simp only [List.length_cons]; push_cast; omega)
      (by simp only [List.length_cons]; omega), hnat, hdig]
    simp

/-- A positive number is rendered as its decimal digits, highest first, and
the returned length is their number. -/
theorem int_to_string_pos (s : String) (i : Int) (hi : 0 < i) :
    int_to_string s i
      = (String.mk ((Nat.digits 10 i.toNat).reverse.map decimalChar),
         ((Nat.digits 10 i.toNat).length : Int)) := by
  simp only [int_to_string, int_to_string_count_eq i.toNat 0 i [] (le_refl _), zero_add,
    List.nil_append, if_neg (show ¬ i = 0 by omega), Int.toNat_ofNat, List.range_eq_range']
  have h := int_to_string_digit_foldl ((Nat.digits 10 i.toNat).length : Int)
    (Nat.digits 10 i.toNat).length i [] [] 0 (by omega) rfl (by simp) rfl
  simp only [List.nil_append, List.append_nil] at h
  rw [h]

/-- The digit characters of Lean agree with `(char) a + 48`. -/
theorem digitChar_eq_decimalChar (d : Nat) (hd : d < 10) : Nat.digitChar d = decimalChar d := by
  interval_cases d <;> rfl

theorem toDigitsCore_eq :
    ∀ (fuel n : Nat) (ds : List Char), n < fuel → 0 < n →
      Nat.toDigitsCore 10 fuel n ds = (Nat.digits 10 n).reverse.map decimalChar ++ ds := by
  intro fuel
  induction fuel with
  | zero => intro n ds h; omega
  | succ fuel ih =>
    intro n ds hfuel hn
    have hdig : Nat.digits 10 n = n % 10 :: Nat.digits 10 (n / 10) :=
      Nat.digits_def' (by decide) hn
    simp only [Nat.toDigitsCore]
    rw [digitChar_eq_decimalChar _ (Nat.mod_lt _ (by decide))]
    by_cases h0 : n / 10 = 0
    · rw [if_pos h0, hdig, h0]
      simp
    · rw [if_neg h0, ih (n / 10) _ (by omega) (by omega), hdig]
      simp

/-- The decimal digits of a positive number, highest first, are its standard
decimal representation. -/
theorem repr_eq_digits (n : Nat) (hn : 0 < n) :
    Nat.repr n = String.mk ((Nat.digits 10 n).reverse.map decimalChar) := by
  unfold Nat.repr Nat.toDigits
  rw [toDigitsCore_eq (n + 1) n [] (by omega) hn, List.append_nil]
  rfl

/-- For every `i >= 0`, whatever `string` held, `int_to_string` leaves the
standard decimal representation of `i` in `string` and returns its length. -/
theorem int_to_string_nonneg (s : String) (i : Int) (hi : 0 ≤ i) :
    int_to_string s i = (Nat.repr i.toNat, ((Nat.repr i.toNat).length : Int)) := by
  rcases hi.lt_or_eq with hpos | hzero
  · rw [int_to_string_pos s i hpos, repr_eq_digits i.toNat (by omega)]
    simp [String.length]
  · subst hzero
    exact int_to_string_zero

/-- A negative number is rendered as the empty string, with length 0. -/
theorem int_to_string_neg (s : String) (i : Int) (hi : i < 0) :
    int_to_string s i = ("", 0) := by
  simp only [int_to_string, int_to_string_count_nonpos (show ¬ 0 < i by omega),
    if_neg (show ¬ i = 0 by omega)]
  rfl

theorem tmod_ten_bounds (a : Int) : -10 < Int.tmod a 10 ∧ Int.tmod a 10 < 10 := by
  constructor
  · cases a with
    | ofNat m =>
      have := Int.tmod_nonneg (a := Int.ofNat m) 10 (Int.ofNat_nonneg m)
      omega
    | negSucc m =>
      have h : Int.tmod (Int.negSucc m) 10 = -(((m + 1) % 10 : Nat) : Int) := rfl
      rw [h]
      omega
  · exact Int.tmod_lt_of_pos _ (by decide)

theorem int_to_string_count_chars :
    ∀ (n : Nat) (len tmp : Int) (s : List Char), tmp.toNat ≤ n →
      ∀ c ∈ (int_to_string_count len tmp s).2, c ∈ s ∨ c = ' ' := by
  intro n
  induction n with
  | zero =>
    intro len tmp s hn c hc
    rw [int_to_string_count_nonpos (by omega)] at hc
    exact Or.inl hc
  | succ n ih =>
    intro len tmp s hn c hc
    by_cases hpos : 0 < tmp
    · rw [int_to_string_count_pos hpos] at hc
      have h10 : Int.tdiv tmp 10 = tmp / 10 := Int.tdiv_eq_ediv (by omega) (by omega)
      rcases ih (len + 1) (Int.tdiv tmp 10) (s ++ [' ']) (by rw [h10]; omega) c hc with h | h
      · rcases List.mem_append.mp h with h | h
        · exact Or.inl h
        · exact Or.inr (by simpa using h)
      · exact Or.inr h
    · rw [int_to_string_count_nonpos hpos] at hc
      exact Or.inl hc

theorem int_to_string_digit_chars (len : Int) :
    ∀ (js : List Nat) (st : Int × List Char), (∀ c ∈ st.2, IsDigitLoopChar c) →
      ∀ c ∈ (js.foldl (int_to_string_digit len) st).2, IsDigitLoopChar c := by
  intro js
  induction js with
  | nil => intro st h; simpa using h
  | cons j rest ih =>
    intro st h
    rw [List.foldl_cons]
    apply ih
    intro c hc
    simp only [int_to_string_digit] at hc
    rcases List.mem_or_eq_of_mem_set hc with hc | rfl
    · exact h c hc
    · have hb := tmod_ten_bounds st.1
      exact Or.inr ⟨(Int.tmod st.1 10 + 48).toNat, by omega, by omega, rfl⟩

/-- Every character of the string `int_to_string` produces is a blank or
`(char) a + 48` for a remainder `a`. -/
theorem int_to_string_chars (s : String) (i : Int) :
    ∀ c ∈ (int_to_string s i).1.data, IsDigitLoopChar c := by
  unfold int_to_string
  simp only
  apply int_to_string_digit_chars
  intro c hc
  split at hc
  · simp only [List.mem_singleton] at hc
    exact Or.inl hc
  · have := int_to_string_count_chars _ 0 i [] (le_refl _) c (by simpa using hc)
    rcases this with h | h
    · simp at h
    · exact Or.inl h

theorem isDigitLoopChar_ne_N {c : Char} (h : IsDigitLoopChar c) : c ≠ 'N' := by
  rcases h with rfl | ⟨n, h1, h2, rfl⟩
  · decide
  · interval_cases n <;> decide

/-- What is appended for a rule other than 29 holds no capital N, hence not the
text " New Standing: ". -/
theorem ruleSuffix_no_standing (brit : Broken_Rule) (h29 : brit.rule_number ≠ 29) :
    ¬ (" New Standing: ".data <:+: (ruleSuffix brit "").data) := by
  intro hinfix
  have hN : 'N' ∈ (ruleSuffix brit "").data := hinfix.subset (by decide)
  unfold ruleSuffix at hN
  simp only [if_neg h29, String.empty_append] at hN
  split at hN
  · simp only [String.data_append, List.mem_append] at hN
    rcases hN with (hN | hN) | hN
    · exact absurd hN (by decide)
    · unfold teamColour at hN
      split at hN <;> exact absurd hN (by decide)
    · exact isDigitLoopChar_ne_N (int_to_string_chars _ _ _ hN) rfl
  · exact absurd hN (by decide)

/-- Claim C7.  With a rule-name table of 42 entries, for every rendered event with
`rule_number = 29`, whatever its breaker reference, the text line is the rule
name (entry 28 of the table) followed by " by ", "Yellow " if the breaker
team is 0 and "Blue " otherwise, the `int_to_string` digits of the breaker id,
" New Standing: ", the digits of `standing.x`, ":" and the digits of
`standing.y`; for every other rule number the text line is the rule name
followed by nothing or by " by ", the colour word and the breaker id digits,
and what is appended does not contain " New Standing: ".  The digits which
`int_to_string` produces are the standard decimal representation of a
non-negative number and the empty string for a negative number. -/
theorem score_standing_suffix (rulenames : List String) (h42 : rulenames.length = 42)
    (fd : Filter_Data) (b : Buffers) (r : RenderedEvent)
    (hr : r ∈ bglDrawRulesystemData rulenames fd b) :
    (r.event.rule_number = 29 →
      ∃ name, rulenames[28]? = some name ∧
        r.text = some (name ++ " by " ++
          (if r.event.rule_breaker.x = 0 then "Yellow " else "Blue ") ++
          (int_to_string "" r.event.rule_breaker.y).1 ++ " New Standing: " ++
          (int_to_string "" r.event.standing.x).1 ++ ":" ++
          (int_to_string "" r.event.standing.y).1)) ∧
    (r.event.rule_number ≠ 29 →
      ∃ name appended, (ruleName rulenames r.event).1 = some name ∧
        r.text = some (name ++ appended) ∧
        (appended = "" ∨
          appended = " by " ++ (if r.event.rule_breaker.x = 0 then "Yellow " else "Blue ") ++
            (int_to_string "" r.event.rule_breaker.y).1) ∧
        ¬ (" New Standing: ".data <:+: appended.data)) ∧
    (∀ v : Int, (0 ≤ v → (int_to_string "" v).1 = Nat.repr v.toNat) ∧
      (v < 0 → (int_to_string "" v).1 = "")) := by
  obtain ⟨hdraw, _, _⟩ := mem_bglDrawRulesystemData hr
  have ht : r.text = (ruleName rulenames r.event).1.map (ruleSuffix r.event) := by
    rw [hdraw]; rfl
  refine ⟨?_, ?_, fun v => ⟨fun hv => by rw [int_to_string_nonneg "" v hv],
    fun hv => by rw [int_to_string_neg "" v hv]⟩⟩
  · intro h29
    obtain ⟨name, hget, _, hname⟩ :=
      ruleName_in_range rulenames h42 r.event (by omega)
    refine ⟨name, ?_, ?_⟩
    · rw [h29] at hget; exact hget
    · rw [ht, hname, Option.map_some']
      unfold ruleSuffix teamColour
      rw [if_pos h29]
      rfl
  · intro h29
    have hsome : ∃ name, (ruleName rulenames r.event).1 = some name := by
      by_cases hout : r.event.rule_number < 1 ∨ r.event.rule_number > 42
      · exact ⟨"unknown", by unfold ruleName; rw [if_pos hout]⟩
      · obtain ⟨name, _, _, hname⟩ := ruleName_in_range rulenames h42 r.event hout
        exact ⟨name, by rw [hname]⟩
    obtain ⟨name, hname⟩ := hsome
    refine ⟨name, ruleSuffix r.event "", hname, ?_, ?_, ruleSuffix_no_standing r.event h29⟩
    · rw [ht, hname, Option.map_some', ruleSuffix_eq_append]
    · unfold ruleSuffix teamColour
      rw [if_neg h29]
      by_cases hteam : r.event.rule_breaker.x ≠ -1
      · right
        rw [if_pos hteam]
        simp only [String.empty_append]
      · left
        rw [if_neg hteam]

/-- Two events of rule 29 at standing 1:0: with the absent breaker `(-1, -1)` the
text is "rule 29 by Blue  New Standing: 1:0" (the id -1 has no digits), with
breaker `(0, 7)` it is "rule 29 by Yellow 7 New Standing: 1:0". -/
theorem score_standing_suffix_witness :
    (drawEvent sampleRulenames [] sampleBall 0 (sampleEvent 29 9900 (-1) (-1))).text
      = some "rule 29 by Blue  New Standing: 1:0" ∧
    (drawEvent sampleRulenames [] sampleBall 0 (sampleEvent 29 9900 0 7)).text
      = some "rule 29 by Yellow 7 New Standing: 1:0" := by
  have htable : sampleRulenames[28]? = some "rule 29" := by decide
  constructor
  · obtain ⟨name, hname, htext⟩ := (score_standing_suffix sampleRulenames (by decide)
      (sampleData (fun _ _ => false) (fun _ _ => []) [sampleEvent 29 9900 (-1) (-1)] 10000)
      (sampleBuffers []) _ (drawEvent_mem_of_newest _ _ _ [] _ rfl (by decide))).1 rfl
    rw [htable] at hname
    cases hname
    refine Eq.trans htext ?_
    simp only [drawEvent, sampleEvent, int_to_string_neg_one, int_to_string_one,
      int_to_string_zero]
    decide
  · obtain ⟨name, hname, htext⟩ := (score_standing_suffix sampleRulenames (by decide)
      (sampleData (fun _ _ => false) (fun _ _ => []) [sampleEvent 29 9900 0 7] 10000)
      (sampleBuffers []) _ (drawEvent_mem_of_newest _ _ _ [] _ rfl (by decide))).1 rfl
    rw [htable] at hname
    cases hname
    refine Eq.trans htext ?_
    simp only [drawEvent, sampleEvent, int_to_string_seven, int_to_string_one,
      int_to_string_zero]
    decide

/-! ### The object state aggregator -/

/-- The inner loop over any list of ids appends, for the seen slots among
them and in their order, the percepts and one model each. -/
theorem foldl_aggregateSlot (fd : Filter_Data) (team : Nat) :
    ∀ (ids : List Nat) (b : Buffers),
      (ids.foldl (fun b id => aggregateSlot fd team id b) b).robot_models
        = b.robot_models ++
          (((ids.map (fun id => (team, id))).filter
            (fun slot => fd.get_robot_seen slot.1 slot.2)).map
            (fun slot => fd.get_robot_model slot.1 slot.2)) ∧
      (ids.foldl (fun b id => aggregateSlot fd team id b) b).current_robot_percepts
        = b.current_robot_percepts ++
          (((ids.map (fun id => (team, id))).filter
            (fun slot => fd.get_robot_seen slot.1 slot.2)).flatMap
            (fun slot => fd.get_current_robot_percepts slot.1 slot.2)) := by
  intro ids
  induction ids with
  | nil => intro b; simp
  | cons id rest ih =>
    intro b
    rw [List.foldl_cons]
    obtain ⟨h1, h2⟩ := ih (aggregateSlot fd team id b)
    rw [h1, h2]
    by_cases hseen : fd.get_robot_seen team id = true
    · simp [aggregateSlot, hseen, List.filter_cons]
    · simp [aggregateSlot, hseen, List.filter_cons]

/-- The outer loop over any list of teams. -/
theorem foldl_aggregateIds (fd : Filter_Data) :
    ∀ (teams : List Nat) (b : Buffers),
      (teams.foldl (fun b team => aggregateIds fd team b) b).robot_models
        = b.robot_models ++
          (((teams.flatMap (fun team =>
              (List.range fd.NUMBER_OF_IDS).map (fun id => (team, id)))).filter
            (fun slot => fd.get_robot_seen slot.1 slot.2)).map
            (fun slot => fd.get_robot_model slot.1 slot.2)) ∧
      (teams.foldl (fun b team => aggregateIds fd team b) b).current_robot_percepts
        = b.current_robot_percepts ++
          (((teams.flatMap (fun team =>
              (List.range fd.NUMBER_OF_IDS).map (fun id => (team, id)))).filter
            (fun slot => fd.get_robot_seen slot.1 slot.2)).flatMap
            (fun slot => fd.get_current_robot_percepts slot.1 slot.2)) := by
  intro teams
  induction teams with
  | nil => intro b; simp
  | cons team rest ih =>
    intro b
    rw [List.foldl_cons]
    obtain ⟨h1, h2⟩ := ih (aggregateIds fd team b)
    obtain ⟨g1, g2⟩ := foldl_aggregateSlot fd team (List.range fd.NUMBER_OF_IDS) b
    rw [h1, h2]
    unfold aggregateIds
    rw [g1, g2]
    simp only [List.flatMap_cons, List.filter_append, List.map_append, List.flatMap_append,
      List.append_assoc, and_self]

theorem mem_roster (fd : Filter_Data) (team id : Nat) :
    (team, id) ∈ roster fd ↔ team < fd.NUMBER_OF_TEAMS ∧ id < fd.NUMBER_OF_IDS := by
  simp [roster, List.mem_flatMap]

theorem roster_nodup (fd : Filter_Data) : (roster fd).Nodup := by
  unfold roster
  rw [List.nodup_flatMap]
  constructor
  · intro team _
    exact (List.nodup_range _).map (fun a c h => by simpa using h)
  · apply (List.nodup_range fd.NUMBER_OF_TEAMS).imp
    intro t1 t2 hne slot h1 h2
    simp only [List.mem_map] at h1 h2
    obtain ⟨i1, _, rfl⟩ := h1
    obtain ⟨i2, _, h⟩ := h2
    simp only [Prod.mk.injEq] at h
    exact hne h.1.symm

/-- Claim C8.  After the aggregation step of `bglDrawFilterData`, whatever the
buffers held before: the robot-model list is the list of the models of the
slots `get_robot_seen` reports as seen, one per slot, in roster order
(team-major, id ascending), and the robot-percept list is the concatenation,
in the same order, of the percept lists of exactly these slots.  The seen
slots are listed without repetition and are exactly the slots of the roster
that are reported seen.  If slot (0, 3) is in the roster and is the only slot
seen, with one percept, both lists have exactly one entry. -/
theorem aggregate_roster (fd : Filter_Data) (b : Buffers) :
    (bglDrawFilterData_aggregate fd b).robot_models
      = (seenSlots fd).map (fun slot => fd.get_robot_model slot.1 slot.2) ∧
    (bglDrawFilterData_aggregate fd b).current_robot_percepts
      = (seenSlots fd).flatMap (fun slot => fd.get_current_robot_percepts slot.1 slot.2) ∧
    (seenSlots fd).Nodup ∧
    (∀ team id, (team, id) ∈ seenSlots fd ↔
      team < fd.NUMBER_OF_TEAMS ∧ id < fd.NUMBER_OF_IDS ∧ fd.get_robot_seen team id = true) ∧
    (0 < fd.NUMBER_OF_TEAMS → 3 < fd.NUMBER_OF_IDS →
      (∀ team id, fd.get_robot_seen team id = true ↔ team = 0 ∧ id = 3) →
      (fd.get_current_robot_percepts 0 3).length = 1 →
      (bglDrawFilterData_aggregate fd b).robot_models = [fd.get_robot_model 0 3] ∧
      (bglDrawFilterData_aggregate fd b).current_robot_percepts
        = fd.get_current_robot_percepts 0 3 ∧
      (bglDrawFilterData_aggregate fd b).robot_models.length = 1 ∧
      (bglDrawFilterData_aggregate fd b).current_robot_percepts.length = 1) := by
  have hmodels : (bglDrawFilterData_aggregate fd b).robot_models
      = (seenSlots fd).map (fun slot => fd.get_robot_model slot.1 slot.2) := by
    unfold bglDrawFilterData_aggregate aggregateTeams
    rw [(foldl_aggregateIds fd (List.range fd.NUMBER_OF_TEAMS) _).1]
    rfl
  have hpercepts : (bglDrawFilterData_aggregate fd b).current_robot_percepts
      = (seenSlots fd).flatMap (fun slot => fd.get_current_robot_percepts slot.1 slot.2) := by
    unfold bglDrawFilterData_aggregate aggregateTeams
    rw [(foldl_aggregateIds fd (List.range fd.NUMBER_OF_TEAMS) _).2]
    rfl
  have hnodup : (seenSlots fd).Nodup := (roster_nodup fd).filter _
  have hmem : ∀ team id, (team, id) ∈ seenSlots fd ↔
      team < fd.NUMBER_OF_TEAMS ∧ id < fd.NUMBER_OF_IDS ∧ fd.get_robot_seen team id = true := by
    intro team id
    unfold seenSlots
    rw [List.mem_filter, mem_roster, and_assoc]
  refine ⟨hmodels, hpercepts, hnodup, hmem, ?_⟩
  intro hT hI honly hone
  have hslots : seenSlots fd = [(0, 3)] := by
    rw [← List.perm_singleton, List.perm_ext_iff_of_nodup hnodup (List.nodup_singleton _)]
    rintro ⟨team, id⟩
    rw [hmem, honly, List.mem_singleton, Prod.mk.injEq]
    constructor
    · rintro ⟨_, _, h⟩; exact h
    · rintro ⟨rfl, rfl⟩; exact ⟨hT, hI, rfl, rfl⟩
  rw [hmodels, hpercepts, hslots]
  simp [hone]

/-- The example of the claim on a roster of 2 teams and 12 ids: only slot (0, 3)
is seen, with one percept; the buffers held stale entries before the call.
Both lists have exactly one entry afterwards. -/
theorem aggregate_roster_witness :
    (bglDrawFilterData_aggregate
      (sampleData (fun team id => team == 0 && id == 3)
        (fun team id => if team = 0 ∧ id = 3 then [⟨10, 20, 0, 0, false⟩] else []) [] 0)
      (sampleBuffers [⟨1, 5, ⟨0, 0, 0, 0⟩⟩, ⟨1, 6, ⟨0, 0, 0, 0⟩⟩])).robot_models
      = [⟨0, 3, ⟨0, 0, 0, 0⟩⟩] ∧
    (bglDrawFilterData_aggregate
      (sampleData (fun team id => team == 0 && id == 3)
        (fun team id => if team = 0 ∧ id = 3 then [⟨10, 20, 0, 0, false⟩] else []) [] 0)
      (sampleBuffers [⟨1, 5, ⟨0, 0, 0, 0⟩⟩, ⟨1, 6, ⟨0, 0, 0, 0⟩⟩])).current_robot_percepts
      = [⟨10, 20, 0, 0, false⟩] :=
  have h := (aggregate_roster
    (sampleData (fun team id => team == 0 && id == 3)
      (fun team id => if team = 0 ∧ id = 3 then [⟨10, 20, 0, 0, false⟩] else []) [] 0)
    (sampleBuffers [⟨1, 5, ⟨0, 0, 0, 0⟩⟩, ⟨1, 6, ⟨0, 0, 0, 0⟩⟩])).2.2.2.2
    (by decide) (by decide) (by intro team id; simp [sampleData]) rfl
  ⟨h.1, h.2.1⟩

/-! ### The field geometry -/

theorem mirror_mirror (p : Vec2) : mirror (mirror p) = p := by
  simp [mirror]

/-- The mirror image of a segment is the segment between the mirrored ends. -/
theorem onSegment_mirror (a b p : Vec2) :
    onSegment (mirror a) (mirror b) p ↔ ∃ p0, onSegment a b p0 ∧ p = mirror p0 := by
  constructor
  · rintro ⟨t, h0, h1, rfl⟩
    refine ⟨(a.1 + t * (b.1 - a.1), a.2 + t * (b.2 - a.2)), ⟨t, h0, h1, rfl⟩, ?_⟩
    simp only [mirror, Prod.mk.injEq, and_true]
    ring
  · rintro ⟨p0, ⟨t, h0, h1, rfl⟩, rfl⟩
    refine ⟨t, h0, h1, ?_⟩
    simp only [mirror, Prod.mk.injEq, and_true]
    ring

/-- A segment is the same point set in either direction. -/
theorem onSegment_comm (a b p : Vec2) : onSegment a b p ↔ onSegment b a p := by
  have key : ∀ a b : Vec2, onSegment a b p → onSegment b a p := by
    rintro a b ⟨t, h0, h1, rfl⟩
    refine ⟨1 - t, by linarith, by linarith, ?_⟩
    simp only [Prod.mk.injEq]
    constructor <;> ring
  exact ⟨key a b, key b a⟩

theorem stripCovers_mirror :
    ∀ (vs : List Vec2) (p : Vec2),
      stripCovers (vs.map mirror) p ↔ ∃ p0, stripCovers vs p0 ∧ p = mirror p0
  | [], p => by simp [stripCovers]
  | [_], p => by simp [stripCovers]
  | a :: b :: rest, p => by
    simp only [List.map_cons, stripCovers]
    have ih := stripCovers_mirror (b :: rest) p
    simp only [List.map_cons] at ih
    rw [ih, onSegment_mirror]
    constructor
    · rintro (⟨p0, h, rfl⟩ | ⟨p0, h, rfl⟩)
      · exact ⟨p0, Or.inl h, rfl⟩
      · exact ⟨p0, Or.inr h, rfl⟩
    · rintro ⟨p0, h | h, rfl⟩
      · exact Or.inl ⟨p0, h, rfl⟩
      · exact Or.inr ⟨p0, h, rfl⟩

theorem linesCovers_mirror :
    ∀ (vs : List Vec2) (p : Vec2),
      linesCovers (vs.map mirror) p ↔ ∃ p0, linesCovers vs p0 ∧ p = mirror p0
  | [], p => by simp [linesCovers]
  | [_], p => by simp [linesCovers]
  | a :: b :: rest, p => by
    simp only [List.map_cons, linesCovers]
    rw [linesCovers_mirror rest p, onSegment_mirror]
    constructor
    · rintro (⟨p0, h, rfl⟩ | ⟨p0, h, rfl⟩)
      · exact ⟨p0, Or.inl h, rfl⟩
      · exact ⟨p0, Or.inr h, rfl⟩
    · rintro ⟨p0, h | h, rfl⟩
      · exact Or.inl ⟨p0, h, rfl⟩
      · exact Or.inr ⟨p0, h, rfl⟩

/-- A primitive with mirrored vertices draws the mirror image. -/
theorem covers_mapVertices_mirror (P : Prim) :
    IsMirrorImage P.covers (P.mapVertices mirror).covers := by
  intro p
  cases P with
  | points vs =>
    simp only [Prim.mapVertices, Prim.covers, List.mem_map]
    constructor
    · rintro ⟨p0, h, rfl⟩; exact ⟨p0, h, rfl⟩
    · rintro ⟨p0, h, rfl⟩; exact ⟨p0, h, rfl⟩
  | lineStrip vs => exact stripCovers_mirror vs p
  | lines vs => exact linesCovers_mirror vs p
  | rect a b =>
    simp only [Prim.mapVertices, Prim.covers, mirror]
    constructor
    · rintro ⟨h1, h2, h3, h4⟩
      refine ⟨(-p.1, p.2), ⟨?_, ?_, h3, h4⟩, by simp⟩
      · rw [max_neg_neg] at h2; simp only; linarith
      · rw [min_neg_neg] at h1; simp only; linarith
    · rintro ⟨p0, ⟨h1, h2, h3, h4⟩, rfl⟩
      refine ⟨?_, ?_, h3, h4⟩
      · rw [min_neg_neg]; simp only; linarith
      · rw [max_neg_neg]; simp only; linarith

theorem drawn_map_mirror (ps : List Prim) :
    IsMirrorImage (drawn ps) (drawn (ps.map (Prim.mapVertices mirror))) := by
  intro p
  simp only [drawn, List.mem_map]
  constructor
  · rintro ⟨_, ⟨P, hP, rfl⟩, hcov⟩
    obtain ⟨p0, h0, rfl⟩ := (covers_mapVertices_mirror P p).mp hcov
    exact ⟨p0, ⟨P, hP, h0⟩, rfl⟩
  · rintro ⟨p0, ⟨P, hP, h0⟩, rfl⟩
    exact ⟨_, ⟨P, hP, rfl⟩, (covers_mapVertices_mirror P _).mpr ⟨p0, h0, rfl⟩⟩

/-- A line strip through four vertices and the strip through their mirror
images in the opposite order draw mirror-image point sets. -/
theorem lineStrip_mirror_reverse_of_eq (a b c d a2 b2 c2 d2 : Vec2)
    (ha : a2 = mirror d) (hb : b2 = mirror c) (hc : c2 = mirror b) (hd : d2 = mirror a) :
    IsMirrorImage (Prim.lineStrip [a, b, c, d]).covers
      (Prim.lineStrip [a2, b2, c2, d2]).covers := by
  subst ha hb hc hd
  intro p
  have h := stripCovers_mirror [a, b, c, d] p
  simp only [Prim.covers]
  rw [← h]
  simp only [List.map_cons, List.map_nil, stripCovers, or_false]
  constructor
  · rintro (h | h | h)
    · exact Or.inr (Or.inr ((onSegment_comm _ _ _).mp h))
    · exact Or.inr (Or.inl ((onSegment_comm _ _ _).mp h))
    · exact Or.inl ((onSegment_comm _ _ _).mp h)
  · rintro (h | h | h)
    · exact Or.inr (Or.inr ((onSegment_comm _ _ _).mp h))
    · exact Or.inr (Or.inl ((onSegment_comm _ _ _).mp h))
    · exact Or.inl ((onSegment_comm _ _ _).mp h)

/-- A rectangle that is symmetric about the horizontal axis: its image under
the point reflection `(x, y) ↦ (-x, -y)` is its mirror image. -/
theorem rect_mirror_of_symmetric_of_eq (a b a2 b2 : Vec2)
    (ha : a2 = (-a.1, -a.2)) (hb2 : b2 = (-b.1, -b.2)) (hsym : a.2 + b.2 = 0) :
    IsMirrorImage (Prim.rect a b).covers (Prim.rect a2 b2).covers := by
  subst ha hb2
  intro p
  have ha : -a.2 = b.2 := by linarith
  have hb : -b.2 = a.2 := by linarith
  simp only [Prim.covers, mirror, ha, hb]
  constructor
  · rintro ⟨h1, h2, h3, h4⟩
    refine ⟨(-p.1, p.2), ⟨?_, ?_, ?_, ?_⟩, by simp⟩
    · rw [max_neg_neg] at h2; simp only; linarith
    · rw [min_neg_neg] at h1; simp only; linarith
    · rw [min_comm]; exact h3
    · rw [max_comm]; exact h4
  · rintro ⟨p0, ⟨h1, h2, h3, h4⟩, rfl⟩
    refine ⟨?_, ?_, ?_, ?_⟩
    · rw [min_neg_neg]; simp only; linarith
    · rw [max_neg_neg]; simp only; linarith
    · rw [min_comm]; exact h3
    · rw [max_comm]; exact h4

theorem drawn_singleton (P : Prim) (p : Vec2) : drawn [P] p ↔ P.covers p := by
  simp [drawn]

theorem isMirrorImage_drawn_singleton (P Q : Prim) :
    IsMirrorImage (drawn [P]) (drawn [Q]) ↔ IsMirrorImage P.covers Q.covers := by
  simp only [IsMirrorImage, drawn_singleton]

/-- Claim C9.  For all field-dimension constants, with the frame drawn in field
coordinates: `draw_marks` draws the centre circle, the centre mark, the first
penalty mark, the first goal and then, under `glScalef(-1, -1, 0)`, the second
penalty mark and the second goal; `bglDrawField` draws the two outlines first,
then the first defense area, then under `glScalef(-1, 1, 1)` the second one,
then the marks.  The point sets drawn for the second goal, the second penalty
mark and the second defense area are exactly the images under
`(x, y) ↦ (-x, y)` of the point sets drawn for the first goal, the first
penalty mark and the first defense area. -/
theorem field_mirror_symmetry (F : Field) :
    (draw_marks F GLState.init).out
      = (drawBresCircle F.center_radius Q_ALL GLState.init).out ++
        (bglPoint 0 0 20 GLState.init).out ++
        (bglPoint ((F.half_field_width - F.penalty_mark_distance : Int) : ℚ) 0 20
          GLState.init).out ++
        (draw_goal F GLState.init).out ++
        (bglPoint ((F.half_field_width - F.penalty_mark_distance : Int) : ℚ) 0 20
          (glScalef (-1) (-1) GLState.init)).out ++
        (draw_goal F (glScalef (-1) (-1) GLState.init)).out ∧
    ((bglDrawField F GLState.init).out).drop 2
      = (draw_defense_area F 0 GLState.init).out ++
        (draw_defense_area F 0 (glScalef (-1) 1 GLState.init)).out ++
        (draw_marks F GLState.init).out ∧
    IsMirrorImage (drawn (draw_goal F GLState.init).out)
      (drawn (draw_goal F (glScalef (-1) (-1) GLState.init)).out) ∧
    IsMirrorImage
      (drawn (bglPoint ((F.half_field_width - F.penalty_mark_distance : Int) : ℚ) 0 20
        GLState.init).out)
      (drawn (bglPoint ((F.half_field_width - F.penalty_mark_distance : Int) : ℚ) 0 20
        (glScalef (-1) (-1) GLState.init)).out) ∧
    IsMirrorImage (drawn (draw_defense_area F 0 GLState.init).out)
      (drawn (draw_defense_area F 0 (glScalef (-1) 1 GLState.init)).out) := by
  refine ⟨rfl, ?_, ?_, ?_, ?_⟩
  · simp only [bglDrawField, draw_marks, draw_defense_area, drawBresCircle, bglPoint, draw_goal,
      glEmit, glRectf, glPushMatrix, glPopMatrix, glScalef, glTranslatef, GLState.init,
      List.nil_append, List.append_assoc, List.cons_append, List.drop_succ_cons, List.drop_zero]
  · refine (isMirrorImage_drawn_singleton _ _).mpr ?_
    show IsMirrorImage (Prim.lineStrip [_, _, _, _]).covers (Prim.lineStrip [_, _, _, _]).covers
    apply lineStrip_mirror_reverse_of_eq <;>
    · simp only [bglPoint, glRectf, glScalef, glPushMatrix, draw_goal, glEmit, drawBresCircle,
        GLState.init, Transform.identity, Transform.apply, vertex2i, mirror, Prod.mk.injEq]
      push_cast
      constructor <;> ring
  · refine (isMirrorImage_drawn_singleton _ _).mpr ?_
    show IsMirrorImage (Prim.rect _ _).covers (Prim.rect _ _).covers
    apply rect_mirror_of_symmetric_of_eq
    · simp only [bglPoint, glRectf, glScalef, glPushMatrix, draw_goal, glEmit, drawBresCircle,
        GLState.init, Transform.identity, Transform.apply, vertex2i, mirror, Prod.mk.injEq]
      constructor <;> ring
    · simp only [bglPoint, glRectf, glScalef, glPushMatrix, draw_goal, glEmit, drawBresCircle,
        GLState.init, Transform.identity, Transform.apply, vertex2i, mirror, Prod.mk.injEq]
      constructor <;> ring
    · simp only [bglPoint, glRectf, glScalef, glPushMatrix, draw_goal, glEmit, drawBresCircle,
        GLState.init, Transform.identity, Transform.apply]
      ring
  · have hmap : (draw_defense_area F 0 (glScalef (-1) 1 GLState.init)).out
        = ((draw_defense_area F 0 GLState.init).out).map (Prim.mapVertices mirror) := by
      simp only [draw_defense_area, drawBresCircle, glEmit, glPushMatrix, glPopMatrix, glScalef,
        glTranslatef, GLState.init, Transform.identity, List.nil_append, List.append_assoc,
        List.map_append, List.map_cons, List.map_nil, Prim.mapVertices, List.map_map,
        List.cons_append, List.cons.injEq, Prim.points.injEq, Prim.lines.injEq, and_true]
      refine ⟨List.map_congr_left fun p _ => ?_, ⟨?_, ?_⟩, List.map_congr_left fun p _ => ?_⟩ <;>
      · simp only [Function.comp, Transform.apply, mirror, vertex2i, Prod.mk.injEq]
        constructor <;> ring
    rw [hmap]
    exact drawn_map_mirror _

/-! ### The stepping loop: number of passes -/

/-- The loop makes at most `y + 1 - x` passes, the `k`-th state in which it
plots is the start state after `k` steps, and after the last pass the loop
guard fails. -/
theorem bresLoop_passes :
    ∀ (n : Nat) (s0 : BresState), (s0.y + 1 - s0.x).toNat ≤ n →
      (bresLoop s0).length ≤ (s0.y + 1 - s0.x).toNat ∧
      bresLoop s0 = (List.range (bresLoop s0).length).map (fun k => bresStep^[k] s0) ∧
      ¬ ((bresStep^[(bresLoop s0).length] s0).x ≤ (bresStep^[(bresLoop s0).length] s0).y) := by
  intro n
  induction n with
  | zero =>
    intro s0 hn
    have hgt : ¬ s0.x ≤ s0.y := by omega
    rw [bresLoop_of_not_le hgt]
    simpa using hgt
  | succ n ih =>
    intro s0 hn
    by_cases hle : s0.x ≤ s0.y
    · have hm := bresStep_measure s0 hle
      obtain ⟨h1, h2, h3⟩ := ih (bresStep s0) (by omega)
      rw [bresLoop_of_le hle]
      refine ⟨?_, ?_, ?_⟩
      · simp only [List.length_cons]; omega
      · simp only [List.length_cons]
        rw [List.range_succ_eq_map, List.map_cons, List.map_map]
        simp only [Function.iterate_zero, id_eq, List.cons.injEq, true_and]
        conv_lhs => rw [h2]
        apply List.map_congr_left
        intro k _
        simp only [Function.comp, Function.iterate_succ]
      · simpa only [List.length_cons, Function.iterate_succ, Function.comp] using h3
    · rw [bresLoop_of_not_le hle]
      simpa using hle

/-- One pass moves `x` up by exactly one and `y` down by nothing or one. -/
theorem bresStep_xy (s : BresState) :
    (bresStep s).x = s.x + 1 ∧ ((bresStep s).y = s.y ∨ (bresStep s).y = s.y - 1) := by
  unfold bresStep
  split
  · exact ⟨rfl, Or.inr rfl⟩
  · exact ⟨rfl, Or.inl rfl⟩

/-- Claim C11.  The stepping loop of `bglBresCircle` terminates for every integer
`r` (the loop is a total function, and the guard `x <= y` fails in the state
reached after the last pass).  For `r >= 0` it makes at least one and at most
`r + 1` passes.  The state of the `k`-th pass is the initial state after `k`
steps, and each step increases `x` by exactly 1 and decreases `y` by 0 or 1.
At every emission `0 <= x <= y <= r`.  For `r < 0` it makes no pass and no
point is emitted, whatever the mask. -/
theorem bresLoop_terminates (r : Int) :
    ¬ ((bresStep^[(bresLoop (bresInit r)).length] (bresInit r)).x
        ≤ (bresStep^[(bresLoop (bresInit r)).length] (bresInit r)).y) ∧
    (0 ≤ r → 1 ≤ (bresLoop (bresInit r)).length ∧
      ((bresLoop (bresInit r)).length : Int) ≤ r + 1) ∧
    bresLoop (bresInit r)
      = (List.range (bresLoop (bresInit r)).length).map (fun k => bresStep^[k] (bresInit r)) ∧
    (∀ s : BresState,
      (bresStep s).x = s.x + 1 ∧ ((bresStep s).y = s.y ∨ (bresStep s).y = s.y - 1)) ∧
    (∀ s ∈ bresLoop (bresInit r), 0 ≤ s.x ∧ s.x ≤ s.y ∧ s.y ≤ r) ∧
    (r < 0 → (bresLoop (bresInit r)).length = 0 ∧ ∀ q, bglBresCircle r q = []) := by
  obtain ⟨hlen, hiter, hexit⟩ := bresLoop_passes _ (bresInit r) (le_refl _)
  refine ⟨hexit, ?_, hiter, bresStep_xy, ?_, ?_⟩
  · intro hr
    constructor
    · rw [bresLoop_init_cons r hr]
      simp
    · have : (bresInit r).y + 1 - (bresInit r).x = r + 1 := by simp [bresInit]
      rw [this] at hlen
      omega
  · intro s hs
    by_cases hr : 0 ≤ r
    · obtain ⟨⟨hx, hy⟩, hle⟩ := bresLoop_xy r s hs
      exact ⟨hx, hle, hy⟩
    · rw [bresLoop_neg r (by omega)] at hs
      simp at hs
  · intro hr
    constructor
    · rw [bresLoop_neg r hr]; rfl
    · intro q
      unfold bglBresCircle
      rw [bresLoop_neg r hr]
      rfl

/-- For radius 4 the loop makes four passes, at `(0,4)`, `(1,4)`, `(2,3)` and
`(3,3)`, which is between 1 and `4 + 1`; for radius 0 it makes `0 + 1 = 1`
pass; for radius -1 it makes none. -/
theorem bresLoop_terminates_witness :
    (bresLoop (bresInit 4)).map (fun s => (s.x, s.y)) = [(0, 4), (1, 4), (2, 3), (3, 3)] ∧
    (1 ≤ (bresLoop (bresInit 4)).length ∧ ((bresLoop (bresInit 4)).length : Int) ≤ 4 + 1) ∧
    (bresLoop (bresInit 0)).length = 1 ∧
    ((bresLoop (bresInit (-1))).length = 0 ∧ ∀ q, bglBresCircle (-1) q = []) :=
  ⟨by simp [bresInit, bresLoop, bresStep, wrap32],
   (bresLoop_terminates 4).2.1 (by decide),
   by simp [bresInit, bresLoop, bresStep, wrap32],
   (bresLoop_terminates (-1)).2.2.2.2.2 (by decide)⟩

/-! ### Decimal rendering: the canonical representation -/

/-- The character of a decimal digit lies in `'0'..'9'`, is `'0'` only for the
digit 0, and its code minus 48 is the digit. -/
theorem decimalChar_props (d : Nat) (hd : d < 10) :
    ('0' ≤ decimalChar d ∧ decimalChar d ≤ '9') ∧
    (decimalChar d = '0' → d = 0) ∧
    (decimalChar d).toNat - 48 = d := by
  unfold decimalChar
  interval_cases d <;> decide

/-- Claim C12.  For every integer `i >= 0`, whatever `string` held before,
`int_to_string(string, i)` sets `string` to the standard decimal
representation of `i`: its characters are in `'0'..'9'`, it has no leading
zero when `i > 0`, it is "0" when `i = 0`, and read as a decimal number it
gives `i` back.  The returned value is the length of that string, which is the
number of decimal digits of `i`: 1 for `i = 0`, and the `len` with
`10^(len-1) <= i < 10^len` for `i > 0`. -/
theorem int_to_string_decimal (string : String) (i : Int) (hi : 0 ≤ i) :
    (int_to_string string i).1 = Nat.repr i.toNat ∧
    (int_to_string string i).2 = ((int_to_string string i).1.length : Int) ∧
    (∀ c ∈ (int_to_string string i).1.data, '0' ≤ c ∧ c ≤ '9') ∧
    (0 < i → (int_to_string string i).1.data.head? ≠ some '0') ∧
    (i = 0 → (int_to_string string i).1 = "0") ∧
    Nat.ofDigits 10 (((int_to_string string i).1.data.map (fun c => c.toNat - 48)).reverse)
      = i.toNat ∧
    (0 < i → 10 ^ ((int_to_string string i).2.toNat - 1) ≤ i.toNat ∧
      i.toNat < 10 ^ (int_to_string string i).2.toNat) ∧
    (i = 0 → (int_to_string string i).2 = 1) := by
  have hrepr := int_to_string_nonneg string i hi
  rcases hi.lt_or_eq with hpos | hzero
  · have hp := int_to_string_pos string i hpos
    have hne : i.toNat ≠ 0 := by omega
    have hlt : ∀ d ∈ Nat.digits 10 i.toNat, d < 10 :=
      fun d hd => Nat.digits_lt_base (by decide) hd
    refine ⟨by rw [hrepr], by rw [hrepr], ?_, ?_, ?_, ?_, ?_, ?_⟩
    · intro c hc
      rw [hp] at hc
      simp only [List.mem_map, List.mem_reverse] at hc
      obtain ⟨d, hd, rfl⟩ := hc
      exact (decimalChar_props d (hlt d hd)).1
    · intro _ hhead
      rw [hp] at hhead
      simp only [List.head?_map, List.head?_reverse] at hhead
      have hnil : Nat.digits 10 i.toNat ≠ [] := Nat.digits_ne_nil_iff_ne_zero.mpr hne
      rw [List.getLast?_eq_getLast _ hnil, Option.map_some', Option.some.injEq] at hhead
      have hlast := (decimalChar_props _ (hlt _ (List.getLast_mem hnil))).2.1 hhead
      exact Nat.getLast_digit_ne_zero 10 hne hlast
    · intro h0; omega
    · rw [hp]
      simp only [List.map_map, List.map_reverse, List.reverse_reverse]
      have hid : (Nat.digits 10 i.toNat).map ((fun c => c.toNat - 48) ∘ decimalChar)
          = Nat.digits 10 i.toNat := by
        conv_rhs => rw [← List.map_id (Nat.digits 10 i.toNat)]
        apply List.map_congr_left
        intro d hd
        exact (decimalChar_props d (hlt d hd)).2.2
      rw [hid, Nat.ofDigits_digits]
    · intro _
      rw [hp]
      simp only [Int.toNat_ofNat]
      constructor
      · have hle := Nat.base_pow_length_digits_le 10 i.toNat (by decide) hne
        have hlen : 0 < (Nat.digits 10 i.toNat).length :=
          List.length_pos.mpr (Nat.digits_ne_nil_iff_ne_zero.mpr hne)
        have hpow : 10 ^ (Nat.digits 10 i.toNat).length
            = 10 * 10 ^ ((Nat.digits 10 i.toNat).length - 1) := by
          rw [← pow_succ', Nat.sub_add_cancel hlen]
        rw [hpow] at hle
        omega
      · exact Nat.lt_base_pow_length_digits (by decide)
    · intro h0; omega
  · subst hzero
    rw [int_to_string_discards string 0, int_to_string_zero]
    refine ⟨by decide, by decide, by decide, ?_, fun _ => rfl, by decide, ?_, fun _ => rfl⟩
    · intro h; exact absurd h (by decide)
    · intro h; exact absurd h (by decide)

/-- The number 1205 is rendered as "1205" with length 4 and the number 0 as "0"
with length 1, also when `string` held something before. -/
theorem int_to_string_decimal_witness :
    int_to_string "old" 1205 = ("1205", 4) ∧ int_to_string "old" 0 = ("0", 1) :=
  have h := int_to_string_decimal "old" 1205 (by decide)
  have h0 := int_to_string_decimal "old" 0 (by decide)
  ⟨Prod.ext (h.1.trans (by decide)) (by rw [h.2.1, h.1]; decide),
   Prod.ext (h0.2.2.2.2.1 rfl) (h0.2.2.2.2.2.2.2 rfl)⟩

/-! ### Robot drawing -/

/-- The loop appends one perimeter vertex for each of its passes; the angle of
the `k`-th is the start angle after `k` additions of the step. -/
theorem perimeter_foldl {D : Type} [Add D] (step : D) :
    ∀ (n : Nat) (rotation : D) (emitted : List (RobotVertex D)),
      (List.range n).foldl
        (fun (st : D × List (RobotVertex D)) _ =>
          (st.1 + step, st.2 ++ [RobotVertex.perimeter st.1]))
        (rotation, emitted)
      = ((fun f => f + step)^[n] rotation,
         emitted ++ (List.range n).map
           (fun k => RobotVertex.perimeter ((fun f => f + step)^[k] rotation))) := by
  intro n
  induction n with
  | zero => intro rotation emitted; simp
  | succ n ih =>
    intro rotation emitted
    rw [List.range_succ, List.foldl_append, ih]
    simp only [List.foldl_cons, List.foldl_nil, List.map_append, List.map_cons, List.map_nil,
      List.append_assoc, Function.iterate_succ_apply']

/-- The vertices of the loop in any arithmetic: thirteen, at the angles reached
by adding the step 0, 1, ..., 12 times. -/
theorem robotPerimeterLoop_eq {D : Type} [Add D] (step rotation : D)
    (emitted : List (RobotVertex D)) :
    robotPerimeterLoop step rotation emitted
      = emitted ++ (List.range 13).map
          (fun k => RobotVertex.perimeter ((fun f => f + step)^[k] rotation)) := by
  unfold robotPerimeterLoop
  rw [perimeter_foldl]

/-- In exact arithmetic, adding the step `k` times gives `rotation + k * step`. -/
theorem iterate_add_step {D : Type} [AddMonoid D] (step rotation : D) (k : Nat) :
    (fun f => f + step)^[k] rotation = rotation + k • step := by
  induction k with
  | zero => simp
  | succ k ih => rw [Function.iterate_succ_apply', ih, succ_nsmul, add_assoc]

theorem robotPerimeterLoop_exact {D : Type} [AddMonoid D] (step rotation : D)
    (emitted : List (RobotVertex D)) :
    robotPerimeterLoop step rotation emitted = emitted ++ perimeterVertices step rotation := by
  rw [robotPerimeterLoop_eq]
  unfold perimeterVertices
  congr 1
  apply List.map_congr_left
  intro k _
  rw [iterate_add_step]

theorem perimeterVertices_filter {D : Type} [AddMonoid D] (step rotation : D) :
    (perimeterVertices step rotation).filter RobotVertex.isPerimeter
      = perimeterVertices step rotation := by
  rw [List.filter_eq_self]
  intro v hv
  unfold perimeterVertices at hv
  obtain ⟨k, _, rfl⟩ := List.mem_map.mp hv
  rfl

/-- Claim C13.  For every call of `draw_robot`, with the angles taken in exact
arithmetic: the perimeter vertices emitted are exactly the 13 vertices at the
angles `rotation + k * step` for `k = 0..12`, `step` being `2 * pi / 12`, in
this order, and they are the last vertices of the block.  When the colour is
YELLOW or BLUE the block is a triangle fan and the origin vertex comes right
before them; when the colour is WHITE or RED the block is a line strip and the
origin vertex comes right before them if and only if `rotation != 0`; for
every other colour the block is a black triangle fan without origin vertex
and the warning is logged, which happens for no other colour. -/
theorem draw_robot_vertices {D : Type} [AddMonoid D] [DecidableEq D] (F : Field) (step : D)
    (glutBitmapWidth0 : Int) (x y : Int) (color : Color) (rotation : D) (team id : Int)
    (last_touched : Bool) :
    ((draw_robot F step glutBitmapWidth0 x y color rotation team id last_touched).vertices.filter
        RobotVertex.isPerimeter = perimeterVertices step rotation) ∧
    (((draw_robot F step glutBitmapWidth0 x y color rotation team id
        last_touched).vertices.filter RobotVertex.isPerimeter).length = 13) ∧
    ((color = Color.YELLOW ∨ color = Color.BLUE) →
      (draw_robot F step glutBitmapWidth0 x y color rotation team id last_touched).vertices
        = RobotVertex.origin :: perimeterVertices step rotation ∧
      (draw_robot F step glutBitmapWidth0 x y color rotation team id last_touched).mode
        = BeginMode.GL_TRIANGLE_FAN) ∧
    ((color = Color.WHITE ∨ color = Color.RED) →
      (rotation ≠ 0 →
        (draw_robot F step glutBitmapWidth0 x y color rotation team id last_touched).vertices
          = RobotVertex.origin :: perimeterVertices step rotation) ∧
      (rotation = 0 →
        (draw_robot F step glutBitmapWidth0 x y color rotation team id last_touched).vertices
          = perimeterVertices step rotation) ∧
      (draw_robot F step glutBitmapWidth0 x y color rotation team id last_touched).mode
        = BeginMode.GL_LINE_STRIP) ∧
    ((color ≠ Color.YELLOW ∧ color ≠ Color.BLUE ∧ color ≠ Color.WHITE ∧ color ≠ Color.RED) →
      (draw_robot F step glutBitmapWidth0 x y color rotation team id last_touched).vertices
        = perimeterVertices step rotation ∧
      (draw_robot F step glutBitmapWidth0 x y color rotation team id last_touched).mode
        = BeginMode.GL_TRIANGLE_FAN ∧
      (draw_robot F step glutBitmapWidth0 x y color rotation team id last_touched).colour
        = (0, 0, 0)) ∧
    ((draw_robot F step glutBitmapWidth0 x y color rotation team id last_touched).warned = true ↔
      (color ≠ Color.YELLOW ∧ color ≠ Color.BLUE ∧ color ≠ Color.WHITE ∧
        color ≠ Color.RED)) := by
  have hv : (draw_robot F step glutBitmapWidth0 x y color rotation team id last_touched).vertices
      = (robotSwitch color rotation).2.2.2 ++ perimeterVertices step rotation := by
    simp only [draw_robot]
    exact robotPerimeterLoop_exact _ _ _
  have hfilter : ((robotSwitch color rotation).2.2.2 ++ perimeterVertices step rotation).filter
      RobotVertex.isPerimeter = perimeterVertices step rotation := by
    rw [List.filter_append, perimeterVertices_filter]
    cases color <;> simp only [robotSwitch] <;> (try split) <;> rfl
  refine ⟨?_, ?_, ?_, ?_, ?_, ?_⟩
  · rw [hv, hfilter]
  · rw [hv, hfilter]
    simp [perimeterVertices]
  · rintro (rfl | rfl) <;> exact ⟨by rw [hv]; rfl, rfl⟩
  · rintro (rfl | rfl)
    · refine ⟨fun h0 => ?_, fun h0 => ?_, rfl⟩
      · rw [hv]; simp only [robotSwitch, if_pos h0]; rfl
      · rw [hv]; simp only [robotSwitch, h0, ne_eq, not_true_eq_false, if_false]; rfl
    · refine ⟨fun h0 => ?_, fun h0 => ?_, rfl⟩
      · rw [hv]; simp only [robotSwitch, if_pos h0]; rfl
      · rw [hv]; simp only [robotSwitch, h0, ne_eq, not_true_eq_false, if_false]; rfl
  · rintro ⟨h1, h2, h3, h4⟩
    cases color
    · exact absurd rfl h1
    · exact absurd rfl h2
    · exact absurd rfl h3
    · exact absurd rfl h4
    · exact ⟨by rw [hv]; rfl, rfl, rfl⟩
    · exact ⟨by rw [hv]; rfl, rfl, rfl⟩
    · exact ⟨by rw [hv]; rfl, rfl, rfl⟩
  · cases color <;> simp [draw_robot, robotSwitch]

/-- A model robot (RED) with rotation 0 is an outline of the 13 perimeter
vertices without the origin; with rotation 1 the origin comes first; a
percept (YELLOW) with rotation 0 has the origin first; an ORANGE robot has
no origin and is reported. -/
theorem draw_robot_vertices_witness :
    (draw_robot ⟨3025, 2025, 3325, 2325, 350, 500, 700, 180, 450, 500, 90, 21⟩ (1 : ℚ) 10
        100 200 Color.RED 0 1 7 true).vertices = perimeterVertices (1 : ℚ) 0 ∧
    (draw_robot ⟨3025, 2025, 3325, 2325, 350, 500, 700, 180, 450, 500, 90, 21⟩ (1 : ℚ) 10
        100 200 Color.RED 1 1 7 true).vertices
      = RobotVertex.origin :: perimeterVertices (1 : ℚ) 1 ∧
    (draw_robot ⟨3025, 2025, 3325, 2325, 350, 500, 700, 180, 450, 500, 90, 21⟩ (1 : ℚ) 10
        100 200 Color.YELLOW 0 (-1) (-1) false).vertices
      = RobotVertex.origin :: perimeterVertices (1 : ℚ) 0 ∧
    (draw_robot ⟨3025, 2025, 3325, 2325, 350, 500, 700, 180, 450, 500, 90, 21⟩ (1 : ℚ) 10
        100 200 Color.ORANGE 0 (-1) (-1) false).warned = true :=
  ⟨((draw_robot_vertices _ _ _ _ _ Color.RED _ _ _ _).2.2.2.1 (Or.inr rfl)).2.1 rfl,
   ((draw_robot_vertices _ _ _ _ _ Color.RED _ _ _ _).2.2.2.1 (Or.inr rfl)).1 (by decide),
   ((draw_robot_vertices _ _ _ _ _ Color.YELLOW _ _ _ _).2.2.1 (Or.inl rfl)).1,
   (draw_robot_vertices _ _ _ _ _ Color.ORANGE _ _ _ _).2.2.2.2.2.mpr (by decide)⟩

end GLExtra
